import Mathlib

/-!
# go-spintax: tokenizer, parser and spin evaluator

A shallow embedding of `spintax.go`.

Conventions of the embedding.

* The source only ever walks its input rune by rune
  (`for k, r := range expr`) and builds every token from `string(r)` values, so
  tokens, symbols and results are rune sequences, `List Char`.  The functions
  named as in the source (`tokenize`, `New`, `Spin`) take the runes of their
  input; `tokenizeString`, `NewString` and `SpinString` take and return the
  bytes of a Go string, decoded as `range` does (an invalid byte reads as
  `utf8.RuneError`) and encoded as `string(r)` does.  On a valid UTF-8 string
  the two agree (`tokenizeString_goString`, `NewString_goString`).  The loop
  index `k` is the byte offset of the rune, as in Go.
* A Go pointer that may be `nil` is an `Option`; a Go `error` value is an
  `Option error` (`none` is the `nil` error).
* `errors.Wrap` and `errors.WithMessage` (github.com/pkg/errors) return `nil`
  when they are handed a `nil` error; `errors.New` and `errors.Errorf` never
  return `nil`.
* `rand.Perm` is a parameter: a random source gives, for the number of the
  call and the length `n`, the slice that the call returns.
* The recursive descent of the parser and the recursion of the evaluator are
  driven by a fuel counter; running out of fuel is a result of its own
  (`Outcome.outOfFuel`) and never an error or a panic of the program.
-/

namespace GoSpintax

/-! ## Errors -/

/-- Go `error` values built by the source. -/
inductive error where
  /-- `errors.Errorf("Unrecognized syntax at rune %d", k)` -/
  | badRune (k : Nat)
  /-- `errors.Errorf("Unrecognized state at rune %d", k)` -/
  | badState (k : Nat)
  /-- `errors.New(msg)` -/
  | new (msg : String)
  /-- the error returned by `strconv.ParseInt` on the given text -/
  | parseInt (text : List Char)
  /-- `errors.Wrap(cause, msg)` / `errors.WithMessage(cause, msg)`, `cause` not nil -/
  | annotate (cause : error) (msg : String)
  deriving DecidableEq, Repr

/-- `errors.Wrap(err, msg)`: nil when `err` is nil. -/
def Wrap (err : Option error) (msg : String) : Option error :=
  match err with
  | none => none
  | some e => some (error.annotate e msg)

/-- `errors.WithMessage(err, msg)`: nil when `err` is nil. -/
def WithMessage (err : Option error) (msg : String) : Option error :=
  match err with
  | none => none
  | some e => some (error.annotate e msg)

/-! ## Data model -/

mutual
/-- `type spintax struct`: a picker (`PICKER`) or a variable (`VARIABLE`). -/
inductive spintax where
  | picker (numToPick : Int) (expressions : List (Option expression))
  | variable (symbol : List Char)
/-- `type expression struct { elements []*expressionElement }` -/
inductive expression where
  | mk (elements : List expressionElement)
/-- `type expressionElement struct`: `STRING_EXPRESSION` with its `str`, or
`SPINTAX_EXPRESSION` with its `*spintax` pointer, which may be nil. -/
inductive expressionElement where
  | str (s : List Char)
  | sptx (sp : Option spintax)
end

/-- `e.elements` -/
def expression.elements : expression → List expressionElement
  | expression.mk els => els

/-! ## Tokenizer -/

/-- Tokenizer state constant `TEXT`. -/
def TEXT : Nat := 0
/-- Tokenizer state constant `OPEN_BRACE`. -/
def OPEN_BRACE : Nat := 1
/-- Tokenizer state constant `OPEN_BRACE_COLON`. -/
def OPEN_BRACE_COLON : Nat := 2
/-- Tokenizer state constant `VARIABLE` (the one local to `tokenize`). -/
def VARIABLE : Nat := 3

/-- The local variables of the loop of `tokenize`. -/
structure TokSt where
  tokens : List (List Char)
  state : Nat
  tmp : List Char
  escape : Bool
  deriving DecidableEq, Repr

/-- `if tmp != "" { tokens = append(tokens, tmp) }` -/
def flush (tokens : List (List Char)) (tmp : List Char) : List (List Char) :=
  if tmp ≠ [] then tokens ++ [tmp] else tokens

/-- One decimal digit, the cases `"0"` .. `"9"` of the header state. -/
def isDigit (c : Char) : Bool :=
  c = '0' || c = '1' || c = '2' || c = '3' || c = '4' ||
  c = '5' || c = '6' || c = '7' || c = '8' || c = '9'

/-- The body of the loop of `tokenize` for the rune `char` at byte offset `k`. -/
def tokStep (k : Nat) (char : Char) (st : TokSt) : Except error TokSt :=
  if !st.escape && char = '\\' then
    .ok { st with escape := true }
  else if st.state = TEXT then
    if st.escape then
      .ok { st with escape := false, tmp := st.tmp ++ ['\\', char] }
    else if char = '{' then
      .ok { st with state := OPEN_BRACE, tokens := flush st.tokens st.tmp, tmp := [char] }
    else if char = '[' then
      .ok { st with state := VARIABLE, tokens := flush st.tokens st.tmp ++ [[char]], tmp := [] }
    else if char = '}' ∨ char = '|' then
      .ok { st with tokens := flush st.tokens st.tmp ++ [[char]], tmp := [] }
    else
      .ok { st with tmp := st.tmp ++ [char] }
  else if st.state = OPEN_BRACE then
    if st.escape then
      .ok { st with escape := false, state := TEXT, tokens := flush st.tokens st.tmp,
                    tmp := ['\\', char] }
    else if char = '{' then
      .ok { st with state := OPEN_BRACE, tokens := flush st.tokens st.tmp, tmp := [char] }
    else if char = ':' then
      .ok { st with state := OPEN_BRACE_COLON, tokens := st.tokens ++ [st.tmp ++ [char]],
                    tmp := [] }
    else if char = '[' then
      .ok { st with state := VARIABLE, tokens := flush st.tokens st.tmp ++ [[char]], tmp := [] }
    else if char = '}' ∨ char = '|' then
      .ok { st with tokens := flush st.tokens st.tmp ++ [[char]], tmp := [] }
    else
      .ok { st with state := TEXT, tokens := flush st.tokens st.tmp, tmp := [char] }
  else if st.state = OPEN_BRACE_COLON then
    if isDigit char then
      .ok { st with tmp := [char] }
    else if char = ':' then
      .ok { st with state := TEXT, tokens := flush st.tokens st.tmp ++ [[char]], tmp := [] }
    else
      .error (error.badRune k)
  else if st.state = VARIABLE then
    if st.escape then
      .ok { st with escape := false, tmp := st.tmp ++ ['\\', char] }
    else if char = ']' then
      .ok { st with state := TEXT, tokens := flush st.tokens st.tmp ++ [[char]], tmp := [] }
    else
      .ok { st with tmp := st.tmp ++ [char] }
  else
    .error (error.badState k)

/-- The loop `for k, r := range expr` of `tokenize`, from byte offset `k` on. -/
def tokLoop : List Char → Nat → TokSt → Except error TokSt
  | [], _, st => .ok st
  | r :: rest, k, st =>
    match tokStep k r st with
    | .error e => .error e
    | .ok st' => tokLoop rest (k + r.utf8Size) st'

/-- `func tokenize(expr string) ([]string, error)` -/
def tokenize (expr : List Char) : Except error (List (List Char)) :=
  match tokLoop expr 0 { tokens := [], state := TEXT, tmp := [], escape := false } with
  | .error e => .error e
  | .ok st => .ok (flush st.tokens st.tmp)

/-! ## Parser -/

/-- `slashes.ReplaceAllString(s, "$1")` for `slashes = regexp.MustCompile("\\\\(.)")`:
from left to right, a backslash followed by a rune other than a newline is
replaced by that rune (`.` does not match `\n`); everything else is kept. -/
def unescape : List Char → List Char
  | [] => []
  | [c] => [c]
  | c :: d :: rest =>
    if c = '\\' ∧ d ≠ '\n' then d :: unescape rest else c :: unescape (d :: rest)

/-- The result of running Go code that may panic, under a fuel bound. -/
inductive Outcome (α : Type) where
  /-- the call returned -/
  | ret (a : α)
  /-- a run-time panic (nil dereference, index or slice bound out of range) -/
  | panic
  /-- the fuel bound was reached before the call returned -/
  | outOfFuel
  deriving DecidableEq

/-- `strconv.ParseUint` digit loop in base 10, with the digits read so far worth `acc`. -/
def parseDigits : List Char → Nat → Option Nat
  | [], acc => some acc
  | c :: rest, acc => if isDigit c then parseDigits rest (10 * acc + (c.toNat - 48)) else none

/-- `strconv.ParseInt(s, 10, 32)`: an optional sign, then at least one decimal
digit and nothing else, the value within the range of `int32`; `none` is a
non-nil error. -/
def ParseInt (s : List Char) : Option Int :=
  match s with
  | [] => none
  | c :: rest =>
    if c = '+' then
      match rest with
      | [] => none
      | _ :: _ =>
        match parseDigits rest 0 with
        | some n => if n < 2 ^ 31 then some (n : Int) else none
        | none => none
    else if c = '-' then
      match rest with
      | [] => none
      | _ :: _ =>
        match parseDigits rest 0 with
        | some n => if n ≤ 2 ^ 31 then some (-(n : Int)) else none
        | none => none
    else
      match parseDigits s 0 with
      | some n => if n < 2 ^ 31 then some (n : Int) else none
      | none => none

/-- The three results `(value, ts, err)` of `parseExpression` and of `parseSpintax`. -/
abbrev Parsed (α : Type) : Type := Option α × List (List Char) × Option error

mutual
/-- The loop of `parseExpression` with `expr.elements = elements` and `ts = ts`. -/
def parseExpressionLoop : Nat → List (List Char) → List expressionElement →
    Outcome (Parsed expression)
  | 0, _, _ => .outOfFuel
  | fuel + 1, ts, elements =>
    match ts with
    | [] => .ret (some (expression.mk elements), ts, none)
    | next :: rest =>
      if next = ['{'] ∨ next = ['{', ':'] ∨ next = ['['] then
        match parseSpintax fuel ts with
        | .outOfFuel => .outOfFuel
        | .panic => .panic
        | .ret (sp, ts1, err) =>
          match err with
          | some e => .ret (none, [], Wrap (some e) "error parsing spintax")
          | none => parseExpressionLoop fuel ts1 (elements ++ [expressionElement.sptx sp])
      else if next = ['|'] ∨ next = ['}'] then
        .ret (some (expression.mk elements), ts, none)
      else
        parseExpressionLoop fuel rest (elements ++ [expressionElement.str (unescape next)])
/-- `func (s *Spintax) parseSpintax(tokens []string)`. -/
def parseSpintax : Nat → List (List Char) → Outcome (Parsed spintax)
  | 0, _ => .outOfFuel
  | fuel + 1, ts =>
    match ts with
    | [] => .panic
    | next :: _ =>
      if next = ['{', ':'] then
        if ts.length < 3 ∨ ts[2]? ≠ some [':'] then
          .ret (none, [], WithMessage none "Unrecognized numbered picker syntax")
        else
          match ParseInt (ts.getD 1 []) with
          | none =>
            .ret (none, [], WithMessage (some (error.parseInt (ts.getD 1 [])))
              ("Invalid picker value " ++ String.mk (ts.getD 1 [])))
          | some parsedPickerValue =>
            parseSpintaxLoop fuel (spintax.picker parsedPickerValue []) (ts.drop 3)
      else if next = ['{'] then
        parseSpintaxLoop fuel (spintax.picker 1 []) (ts.drop 1)
      else if next = ['['] then
        parseSpintaxLoop fuel (spintax.variable []) (ts.drop 1)
      else
        .ret (none, [], some (error.new "Unrecognized spintax beginning token identifier"))
/-- The loop `for len(ts) > 0` of `parseSpintax` on the node `sptx` built so
far (a variable node whose `variable` field is still nil is `spintax.variable []`). -/
def parseSpintaxLoop : Nat → spintax → List (List Char) → Outcome (Parsed spintax)
  | 0, _, _ => .outOfFuel
  | fuel + 1, sptx, ts =>
    match ts with
    | [] => .ret (none, [], some (error.new "Ran out of tokens parsing spintax"))
    | t0 :: _ =>
      match sptx with
      | spintax.picker numToPick expressions =>
        match parseExpressionLoop fuel ts [] with
        | .outOfFuel => .outOfFuel
        | .panic => .panic
        | .ret (expr, ts1, err) =>
          match err with
          | some e => .ret (none, [], Wrap (some e) "unable to parse expression")
          | none =>
            match ts1 with
            | [] =>
              .ret (none, [], WithMessage none "Unexpected end of expression while parsing picker")
            | next :: ts2 =>
              if next = ['}'] then
                if numToPick > ((expressions ++ [expr]).length : Int) then
                  .ret (none, [],
                    WithMessage none "Defined a numbered picker without enough choices")
                else
                  .ret (some (spintax.picker numToPick (expressions ++ [expr])), ts2, none)
              else if next = ['|'] then
                parseSpintaxLoop fuel (spintax.picker numToPick (expressions ++ [expr])) ts2
              else
                .ret (none, [], WithMessage none "Unrecognized token in picker")
      | spintax.variable _ =>
        if ts.length < 2 ∨ ts[1]? ≠ some [']'] then
          .ret (none, [], WithMessage none "Unrecognized variable syntax")
        else
          .ret (some (spintax.variable t0), ts.drop 2, none)
end

/-- `func (s *Spintax) parseExpression(tokens []string)`. -/
def parseExpression (fuel : Nat) (tokens : List (List Char)) : Outcome (Parsed expression) :=
  parseExpressionLoop fuel tokens []

/-- `type Spintax struct`: the symbol table (a missing key reads as nil) and
the embedded `*expression`. -/
structure Spintax where
  symbolTable : List Char → Option expression
  expression : Option expression

/-- Fuel that the parser is run with on `tokens`: three steps per token and
three more, which is enough for the parser to return on every token list
(`parseExpression_returns`). -/
def parseFuel (tokens : List (List Char)) : Nat := 3 * tokens.length + 3

/-- `func (s *Spintax) parse(tokens []string) error`: the receiver after the
call and the error returned. -/
def Spintax.parse (s : Spintax) (tokens : List (List Char)) : Outcome (Spintax × Option error) :=
  match parseExpression (parseFuel tokens) tokens with
  | .outOfFuel => .outOfFuel
  | .panic => .panic
  | .ret (expr, ts, err) =>
    match err with
    | some e => .ret (s, Wrap (some e) "error parsing expression")
    | none =>
      if ts.length > 0 then
        .ret (s, some (error.new "Leftover tokens after expression parse"))
      else
        .ret ({ s with expression := expr }, none)

/-- `func New(expr string) (*Spintax, error)`. -/
def New (expr : List Char) : Outcome (Option Spintax × Option error) :=
  match tokenize expr with
  | .error e => .ret (none, Wrap (some e) "unable to tokenize expression")
  | .ok tokens =>
    match Spintax.parse { symbolTable := fun _ => none, expression := none } tokens with
    | .outOfFuel => .outOfFuel
    | .panic => .panic
    | .ret (s, err) =>
      match err with
      | some e => .ret (none, Wrap (some e) "unable to parse tokens")
      | none => .ret (some s, none)

/-- `func (s *Spintax) Define(symbol string, variable string) error`: the
receiver after the call and the error returned (`variableText` is the
parameter `variable`). -/
def Spintax.Define (s : Spintax) (symbol variableText : List Char) :
    Outcome (Spintax × Option error) :=
  match tokenize variableText with
  | .error e => .ret (s, Wrap (some e) "unable to tokenize expression")
  | .ok tokens =>
    match parseExpression (parseFuel tokens) tokens with
    | .outOfFuel => .outOfFuel
    | .panic => .panic
    | .ret (expr, ts, err) =>
      match err with
      | some e => .ret (s, Wrap (some e) "error parsing expression")
      | none =>
        if ts.length > 0 then
          .ret (s, WithMessage none "Leftover tokens after expression parse")
        else
          .ret ({ s with symbolTable := fun k => if k = symbol then expr else s.symbolTable k },
                none)

/-! ## Spin evaluator -/

/-- The random source: `rs c n` is what the `c`-th call of `rand.Perm`, made
with argument `n`, returns. -/
abbrev RandSrc : Type := Nat → Nat → List Nat

/-- A random source as `rand.Perm` documents it: every call with argument `n`
returns a permutation of `0, .., n-1`. -/
def RandSrc.Valid (rs : RandSrc) : Prop := ∀ c n, List.Perm (rs c n) (List.range n)

/-- A loop `for _, x := range xs { b.WriteString(f(x)) }` with `b` holding
`b` and `c` calls of `rand.Perm` made so far. -/
def spinLoop {α : Type} (f : α → Nat → Outcome (List Char × Nat)) :
    List α → List Char → Nat → Outcome (List Char × Nat)
  | [], b, c => .ret (b, c)
  | x :: xs, b, c =>
    match f x c with
    | .outOfFuel => .outOfFuel
    | .panic => .panic
    | .ret (s, c1) => spinLoop f xs (b ++ s) c1

mutual
/-- `func (e *expression) spin() string`, after `c` calls of `rand.Perm`. -/
def expression.spin : Nat → RandSrc → (List Char → Option expression) →
    Option expression → Nat → Outcome (List Char × Nat)
  | 0, _, _, _, _ => .outOfFuel
  | fuel + 1, rs, lookup, e, c =>
    match e with
    | none => .panic
    | some (expression.mk elements) =>
      spinLoop (fun ele c1 => expressionElement.spin fuel rs lookup ele c1) elements [] c
/-- `func (e *expressionElement) spin() string`. -/
def expressionElement.spin : Nat → RandSrc → (List Char → Option expression) →
    expressionElement → Nat → Outcome (List Char × Nat)
  | 0, _, _, _, _ => .outOfFuel
  | fuel + 1, rs, lookup, e, c =>
    match e with
    | expressionElement.str s => .ret (s, c)
    | expressionElement.sptx sp => spintax.spin fuel rs lookup sp c
/-- `func (s *spintax) spin() string`; `lookup` is the table `*s.lookup`. -/
def spintax.spin : Nat → RandSrc → (List Char → Option expression) →
    Option spintax → Nat → Outcome (List Char × Nat)
  | 0, _, _, _, _ => .outOfFuel
  | fuel + 1, rs, lookup, s, c =>
    match s with
    | none => .panic
    | some (spintax.picker numToPick expressions) =>
      if numToPick < 0 ∨ numToPick > ((rs c expressions.length).length : Int) then
        .panic
      else
        spinLoop
          (fun i c1 =>
            match expressions[i]? with
            | none => .panic
            | some e => expression.spin fuel rs lookup e c1)
          ((rs c expressions.length).take numToPick.toNat) [] (c + 1)
    | some (spintax.variable symbol) => expression.spin fuel rs lookup (lookup symbol) c
end

/-- `func (s *Spintax) Spin() string` run with fuel `fuel` on the random
source `rs`: the string returned. -/
def Spintax.Spin (fuel : Nat) (rs : RandSrc) (s : Spintax) : Outcome (List Char) :=
  match expression.spin fuel rs s.symbolTable s.expression 0 with
  | .outOfFuel => .outOfFuel
  | .panic => .panic
  | .ret (str, _) => .ret str

/-! ## Text of the claims -/

/-- Every rune of the text outside a backslash escape satisfies `p`, every
escaped rune satisfies `q`, and the text does not end in a backslash that
escapes nothing. -/
def scan (p q : Char → Bool) : List Char → Bool
  | [] => true
  | [c] => c ≠ '\\' && p c
  | c :: d :: rest => if c = '\\' then q d && scan p q rest else p c && scan p q (d :: rest)

/-- The text with every backslash escape replaced by the rune it escapes. -/
def unescaped : List Char → List Char
  | [] => []
  | [c] => [c]
  | c :: d :: rest => if c = '\\' then d :: unescaped rest else c :: unescaped (d :: rest)

/-- A rune that the `TEXT` state appends to `tmp`: none of `{`, `[`, `}`, `|`. -/
def plainRune (c : Char) : Bool := c ≠ '{' && c ≠ '[' && c ≠ '}' && c ≠ '|'

/-- A rune that is neither `}` nor `|`, the delimiters a picker owns. -/
def noDelimiter (c : Char) : Bool := c ≠ '}' && c ≠ '|'

/-- A rune free of special meaning: none of `{`, `}`, `[`, `|`, `\`. -/
def ordinary (c : Char) : Bool := c ≠ '{' && c ≠ '}' && c ≠ '[' && c ≠ '|' && c ≠ '\\'

/-- The number of bytes of the UTF-8 encoding of a text. -/
def utf8Len (t : List Char) : Nat := (t.map Char.utf8Size).sum

/-- A rune that the pattern `.` of `slashes` matches: any rune but the newline. -/
def notNewline (c : Char) : Bool := c ≠ '\n'

/-- The text `s` with a backslash inserted before each `{`, `[`, `|`, `}` and `\`. -/
def esc : List Char → List Char
  | [] => []
  | c :: s =>
    if c = '{' ∨ c = '[' ∨ c = '|' ∨ c = '}' ∨ c = '\\' then '\\' :: c :: esc s else c :: esc s

/-- A token that `parseExpression` takes for literal text: none of `{`, `{:`, `[`, `|`, `}`. -/
def literalToken (tok : List Char) : Prop :=
  tok ≠ ['{'] ∧ tok ≠ ['{', ':'] ∧ tok ≠ ['['] ∧ tok ≠ ['|'] ∧ tok ≠ ['}']

/-- The expression that a literal text `t` compiles to: no element for the
empty text, one string element otherwise. -/
def literalExpression (t : List Char) : expression :=
  expression.mk (if t = [] then [] else [expressionElement.str t])

/-- The alternatives `a_1|...|a_n` written out with `|` between them. -/
def alternatives : List (List Char) → List Char
  | [] => []
  | [a] => a
  | a :: b :: rest => a ++ '|' :: alternatives (b :: rest)

/-- The template `{a_1|...|a_n}`. -/
def unnumberedPicker (as : List (List Char)) : List Char :=
  '{' :: alternatives as ++ ['}']

/-- The template `{:k:a_1|...|a_n}` for a decimal digit `k`. -/
def numberedPicker (k : Nat) (as : List (List Char)) : List Char :=
  '{' :: ':' :: Nat.digitChar k :: ':' :: alternatives as ++ ['}']

/-- The tokens of `a_1|...|a_n}`: an empty alternative leaves no token. -/
def bodyTokens : List (List Char) → List (List Char)
  | [] => [['}']]
  | [a] => flush [] a ++ [['}']]
  | a :: b :: rest => flush [] a ++ ['|'] :: bodyTokens (b :: rest)

/-- The parser call returned, leaving at most `n` tokens. -/
def Returned {α : Type} (n : Nat) (o : Outcome (Parsed α)) : Prop :=
  ∃ v ts err, o = .ret (v, ts, err) ∧ ts.length ≤ n

/-- The template `{a_1|...|a_n` of a picker whose closing `}` is missing. -/
def unterminatedPicker (as : List (List Char)) : List Char :=
  '{' :: alternatives as

mutual
/-- A spintax node is complete: a variable, or a picker with at least one
alternative, `0 ≤ numToPick ≤` the number of alternatives, and every
alternative non-nil and complete. -/
def spintax.wellFormed : spintax → Bool
  | spintax.picker numToPick expressions =>
    decide (0 ≤ numToPick) && decide (numToPick ≤ (expressions.length : Int)) &&
      decide (1 ≤ expressions.length) && wellFormedAlternatives expressions
  | spintax.variable _ => true
/-- Every alternative is a non-nil, complete expression. -/
def wellFormedAlternatives : List (Option expression) → Bool
  | [] => true
  | none :: _ => false
  | some e :: rest => e.wellFormed && wellFormedAlternatives rest
/-- An expression is complete: every nested spintax element, at any depth,
holds a non-nil, complete node. -/
def expression.wellFormed : expression → Bool
  | expression.mk elements => wellFormedElements elements
/-- Every spintax element of the list holds a non-nil, complete node. -/
def wellFormedElements : List expressionElement → Bool
  | [] => true
  | expressionElement.str _ :: rest => wellFormedElements rest
  | expressionElement.sptx none :: _ => false
  | expressionElement.sptx (some sp) :: rest => sp.wellFormed && wellFormedElements rest
end

/-- No two adjacent runes of the text are both decimal digits. -/
def noAdjacentDigits : List Char → Bool
  | [] => true
  | [_] => true
  | c :: d :: rest => !(isDigit c && isDigit d) && noAdjacentDigits (d :: rest)

/-- A token at which `parseExpression` does not stop: neither `|` nor `}`. -/
def notDelimiterToken (t : List Char) : Bool := t ≠ ['|'] && t ≠ ['}']

/-- An opener token, at which `parseExpression` calls `parseSpintax`: `{`, `{:` or `[`. -/
def openerToken (t : List Char) : Bool := t = ['{'] || t = ['{', ':'] || t = ['[']

/-- What one step of the loop keeps when no escape is pending and the rune is
no backslash: the runes read so far are the tokens followed by `tmp`. -/
def Lossless (st : TokSt) (read : List Char) : Prop :=
  st.tokens.flatten ++ st.tmp = read ∧ (∀ t ∈ st.tokens, t ≠ []) ∧ st.escape = false

/-! ## Go strings as bytes

The definitions above work on the runes of a string.  The ones below start
from its bytes: `for k, r := range expr` decodes the bytes into runes, an
invalid byte giving `utf8.RuneError` with width 1, and `string(r)` encodes a
rune back into bytes.  A token is built from `string(r)` values only, so its
bytes are the encoding of its runes. -/

/-- `utf8.RuneError`, the rune U+FFFD. -/
def runeError : Char := Char.ofNat 0xFFFD

/-- `runtime.decoderune(s, 0)`: the rune that starts the bytes `s`, whose first
byte is not below `0x80`, and its width; `(RuneError, 1)` when the bytes do not
start with a well-formed encoding. -/
def decoderune (s : List Nat) : Char × Nat :=
  match s with
  | [] => (runeError, 1)
  | b0 :: rest =>
    if 0xC0 ≤ b0 ∧ b0 < 0xE0 then
      match rest with
      | b1 :: _ =>
        if 0x80 ≤ b1 ∧ b1 ≤ 0xBF ∧ 0x7F < (b0 % 32) * 64 + b1 % 64 then
          (Char.ofNat ((b0 % 32) * 64 + b1 % 64), 2)
        else (runeError, 1)
      | [] => (runeError, 1)
    else if 0xE0 ≤ b0 ∧ b0 < 0xF0 then
      match rest with
      | b1 :: b2 :: _ =>
        if 0x80 ≤ b1 ∧ b1 ≤ 0xBF ∧ 0x80 ≤ b2 ∧ b2 ≤ 0xBF ∧
            0x7FF < (b0 % 16) * 4096 + (b1 % 64) * 64 + b2 % 64 ∧
            ¬ (0xD800 ≤ (b0 % 16) * 4096 + (b1 % 64) * 64 + b2 % 64 ∧
               (b0 % 16) * 4096 + (b1 % 64) * 64 + b2 % 64 ≤ 0xDFFF) then
          (Char.ofNat ((b0 % 16) * 4096 + (b1 % 64) * 64 + b2 % 64), 3)
        else (runeError, 1)
      | _ => (runeError, 1)
    else if 0xF0 ≤ b0 ∧ b0 < 0xF8 then
      match rest with
      | b1 :: b2 :: b3 :: _ =>
        if 0x80 ≤ b1 ∧ b1 ≤ 0xBF ∧ 0x80 ≤ b2 ∧ b2 ≤ 0xBF ∧ 0x80 ≤ b3 ∧ b3 ≤ 0xBF ∧
            0xFFFF < (b0 % 8) * 262144 + (b1 % 64) * 4096 + (b2 % 64) * 64 + b3 % 64 ∧
            (b0 % 8) * 262144 + (b1 % 64) * 4096 + (b2 % 64) * 64 + b3 % 64 ≤ 0x10FFFF then
          (Char.ofNat ((b0 % 8) * 262144 + (b1 % 64) * 4096 + (b2 % 64) * 64 + b3 % 64), 4)
        else (runeError, 1)
      | _ => (runeError, 1)
    else (runeError, 1)

/-- One iteration of `for k, r := range s` at the start of the bytes `s`: the
rune `r` and the number of bytes it takes. -/
def rangeRune (s : List Nat) : Char × Nat :=
  match s with
  | [] => (runeError, 1)
  | b0 :: _ => if b0 < 0x80 then (Char.ofNat b0, 1) else decoderune s

/-- The runes of `for k, r := range s`, each with its width, when the next
`skip` bytes belong to the rune read last. -/
def rangeRunes : List Nat → Nat → List (Char × Nat)
  | [], _ => []
  | _ :: rest, skip + 1 => rangeRunes rest skip
  | b :: rest, 0 => rangeRune (b :: rest) :: rangeRunes rest ((rangeRune (b :: rest)).2 - 1)

/-- `string(r)`: the UTF-8 encoding of the rune `r`. -/
def encodeRune (c : Char) : List Nat :=
  if c.toNat < 0x80 then [c.toNat]
  else if c.toNat < 0x800 then [0xC0 + c.toNat / 64, 0x80 + c.toNat % 64]
  else if c.toNat < 0x10000 then
    [0xE0 + c.toNat / 4096, 0x80 + c.toNat / 64 % 64, 0x80 + c.toNat % 64]
  else
    [0xF0 + c.toNat / 262144, 0x80 + c.toNat / 4096 % 64, 0x80 + c.toNat / 64 % 64,
      0x80 + c.toNat % 64]

/-- The bytes of the Go string made of the runes `t`; the strings of this
form are the valid UTF-8 strings. -/
def goString (t : List Char) : List Nat := (t.map encodeRune).flatten

/-- The loop `for k, r := range expr` of `tokenize` on the decoded runes, each
with its width, from byte offset `k` on. -/
def tokLoopRunes : List (Char × Nat) → Nat → TokSt → Except error TokSt
  | [], _, st => .ok st
  | (r, w) :: rest, k, st =>
    match tokStep k r st with
    | .error e => .error e
    | .ok st' => tokLoopRunes rest (k + w) st'

/-- `func tokenize(expr string) ([]string, error)` on the bytes of `expr`. -/
def tokenizeString (expr : List Nat) : Except error (List (List Char)) :=
  match tokLoopRunes (rangeRunes expr 0) 0
      { tokens := [], state := TEXT, tmp := [], escape := false } with
  | .error e => .error e
  | .ok st => .ok (flush st.tokens st.tmp)

/-- `func New(expr string) (*Spintax, error)` on the bytes of `expr`. -/
def NewString (expr : List Nat) : Outcome (Option Spintax × Option error) :=
  match tokenizeString expr with
  | .error e => .ret (none, Wrap (some e) "unable to tokenize expression")
  | .ok tokens =>
    match Spintax.parse { symbolTable := fun _ => none, expression := none } tokens with
    | .outOfFuel => .outOfFuel
    | .panic => .panic
    | .ret (s, err) =>
      match err with
      | some e => .ret (none, Wrap (some e) "unable to parse tokens")
      | none => .ret (some s, none)

/-- `func (s *Spintax) Spin() string`: the bytes of the string returned. -/
def Spintax.SpinString (fuel : Nat) (rs : RandSrc) (s : Spintax) : Outcome (List Nat) :=
  match Spintax.Spin fuel rs s with
  | .outOfFuel => .outOfFuel
  | .panic => .panic
  | .ret str => .ret (goString str)

/-- The bytes `s` with a backslash byte inserted before each byte `{`, `[`,
`|`, `}` and `\`. -/
def escString : List Nat → List Nat
  | [] => []
  | b :: s =>
    if b = 0x7B ∨ b = 0x5B ∨ b = 0x7C ∨ b = 0x7D ∨ b = 0x5C then 0x5C :: b :: escString s
    else b :: escString s

/-! # Theorems -/

/-! ## Tokenizer lemmas -/


theorem tokLoop_text_scan (q : Char → Bool) (t : List Char) :
    ∀ (k : Nat) (toks : List (List Char)) (tmp : List Char),
      scan plainRune q t = true →
      tokLoop t k { tokens := toks, state := TEXT, tmp := tmp, escape := false }
        = .ok { tokens := toks, state := TEXT, tmp := tmp ++ t, escape := false } := by
  induction t using scan.induct plainRune q with
  | case1 => intro k toks tmp _; simp [tokLoop]
  | case2 c =>
    intro k toks tmp h
    simp [scan, plainRune] at h
    obtain ⟨hc, ⟨⟨h3, h4⟩, h5⟩, h6⟩ := h
    simp [tokLoop, tokStep, hc, h3, h4, h5, h6]
  | case3 d rest ih =>
    intro k toks tmp h
    simp [scan] at h
    have e1 := ih (k + '\\'.utf8Size + d.utf8Size) toks (tmp ++ ['\\', d]) h.2
    simp [tokLoop, tokStep]
    simpa using e1
  | case4 c d rest hc ih =>
    intro k toks tmp h
    simp [scan, hc, plainRune] at h
    obtain ⟨⟨⟨⟨h3, h4⟩, h5⟩, h6⟩, hr⟩ := h
    have e1 := ih (k + c.utf8Size) toks (tmp ++ [c]) hr
    rw [tokLoop]
    simp [tokStep, hc, h3, h4, h5, h6]
    simpa using e1

theorem flush_nil (toks : List (List Char)) : flush toks [] = toks := by simp [flush]

theorem flush_cons (toks : List (List Char)) (c : Char) (t : List Char) :
    flush toks (c :: t) = toks ++ [c :: t] := by simp [flush]

theorem tokenize_text_scan (q : Char → Bool) (t : List Char) (h : scan plainRune q t = true) :
    tokenize t = .ok (flush [] t) := by
  simp [tokenize, tokLoop_text_scan q t 0 [] [] h]

theorem literalToken_of_scan (q : Char → Bool) (t : List Char)
    (h : scan plainRune q t = true) (hne : t ≠ []) : literalToken t := by
  match t, h, hne with
  | [c], h, _ =>
    simp [scan, plainRune] at h
    obtain ⟨hc, ⟨⟨h3, h4⟩, h5⟩, h6⟩ := h
    simp [literalToken, h3, h4, h5, h6]
  | c :: d :: rest, h, _ =>
    by_cases hc : c = '\\'
    · subst hc; simp [literalToken]
    · simp [scan, hc, plainRune] at h
      obtain ⟨⟨⟨⟨h3, h4⟩, h5⟩, h6⟩, hr⟩ := h
      simp [literalToken, h3, h4, h5, h6]

theorem unescape_eq_unescaped (p : Char → Bool) (t : List Char)
    (h : scan p notNewline t = true) : unescape t = unescaped t := by
  induction t using scan.induct p notNewline with
  | case1 => rfl
  | case2 c => rfl
  | case3 d rest ih =>
    simp [scan] at h
    have hd : d ≠ '\n' := by simpa [notNewline] using h.1
    simp [unescape, unescaped, hd, ih h.2]
  | case4 c d rest hc ih =>
    simp [scan, hc] at h
    simp [unescape, unescaped, hc, ih h.2]

theorem parseExpressionLoop_literal (fuel : Nat) (tok : List Char) (rest : List (List Char))
    (els : List expressionElement) (h : literalToken tok) :
    parseExpressionLoop (fuel + 1) (tok :: rest) els
      = parseExpressionLoop fuel rest (els ++ [expressionElement.str (unescape tok)]) := by
  obtain ⟨h1, h2, h3, h4, h5⟩ := h
  rw [parseExpressionLoop]
  simp [h1, h2, h3, h4, h5]

theorem parseExpressionLoop_nil (fuel : Nat) (els : List expressionElement) :
    parseExpressionLoop (fuel + 1) [] els = .ret (some (expression.mk els), [], none) := by
  rw [parseExpressionLoop]

theorem parseExpressionLoop_delim (fuel : Nat) (tok : List Char) (rest : List (List Char))
    (els : List expressionElement) (h : tok = ['|'] ∨ tok = ['}']) :
    parseExpressionLoop (fuel + 1) (tok :: rest) els
      = .ret (some (expression.mk els), tok :: rest, none) := by
  rw [parseExpressionLoop]
  rcases h with h | h <;> subst h <;> simp

/-! ## Literal templates -/

theorem parseExpression_literal (q : Char → Bool) (t : List Char)
    (h : scan plainRune q t = true) (fuel : Nat) :
    parseExpression (fuel + 2) (flush [] t)
      = .ret (some (expression.mk (if t = [] then [] else [expressionElement.str (unescape t)])),
          [], none) := by
  by_cases ht : t = []
  · subst ht
    simp [parseExpression, flush, parseExpressionLoop_nil]
  · have hl := literalToken_of_scan q t h ht
    simp [parseExpression, flush, ht, parseExpressionLoop_literal _ _ _ _ hl,
      parseExpressionLoop_nil]

theorem New_literal (q : Char → Bool) (t : List Char) (h : scan plainRune q t = true) :
    New t = .ret (some { symbolTable := fun _ => none,
                         expression := some (expression.mk
                           (if t = [] then [] else [expressionElement.str (unescape t)])) },
                  none) := by
  have hp := parseExpression_literal q t h (3 * (flush [] t).length + 1)
  simp only [New, tokenize_text_scan q t h, Spintax.parse, parseFuel]
  rw [show 3 * (flush [] t).length + 3 = 3 * (flush [] t).length + 1 + 2 from rfl, hp]
  simp

theorem spin_literal (fuel : Nat) (rs : RandSrc) (lookup : List Char → Option expression)
    (t u : List Char) (c : Nat) :
    expression.spin (fuel + 2) rs lookup
        (some (expression.mk (if t = [] then [] else [expressionElement.str u]))) c
      = .ret (if t = [] then [] else u, c) := by
  by_cases ht : t = []
  · simp [ht, expression.spin, spinLoop]
  · simp [ht, expression.spin, spinLoop, expressionElement.spin]

theorem unescape_esc (s : List Char) : unescape (esc s) = s := by
  induction s with
  | nil => rfl
  | cons c s ih =>
    by_cases hc : c = '{' ∨ c = '[' ∨ c = '|' ∨ c = '}' ∨ c = '\\'
    · have hn : c ≠ '\n' := by rcases hc with h | h | h | h | h <;> subst h <;> decide
      simp [esc, hc, unescape, hn, ih]
    · have hb : c ≠ '\\' := fun h => hc (by simp [h])
      simp only [esc, hc, if_false]
      cases he : esc s with
      | nil => rw [he] at ih; simp [unescape, ← ih]
      | cons d r => rw [he] at ih; simp [unescape, hb, ih]

theorem scan_esc (s : List Char) : scan plainRune (fun _ => true) (esc s) = true := by
  induction s with
  | nil => rfl
  | cons c s ih =>
    by_cases hc : c = '{' ∨ c = '[' ∨ c = '|' ∨ c = '}' ∨ c = '\\'
    · simp [esc, hc, scan, ih]
    · have hb : c ≠ '\\' := fun h => hc (by simp [h])
      have hp : plainRune c = true := by
        simp only [not_or] at hc
        simp [plainRune, hc.1, hc.2.1, hc.2.2.1, hc.2.2.2.1]
      simp only [esc, hc, if_false]
      cases he : esc s with
      | nil => simp [scan, hb, hp]
      | cons d r => rw [he] at ih; simp [scan, hb, hp, ih]

theorem esc_eq_nil (s : List Char) : esc s = [] ↔ s = [] := by
  cases s with
  | nil => simp [esc]
  | cons c s => simp only [esc]; split <;> simp

/-! ## Claims -/

/-- Escaping round trip on rune sequences: for every rune sequence `s`,
compiling `esc s` (`s` with a backslash before each `{`, `[`, `|`, `}` and
`\`) returns a compiled object and no error, and spinning that object returns
exactly `s`, whatever the random source, as soon as the evaluator has fuel for
its two nested calls. -/
theorem esc_round_trip_runes (s : List Char) :
    ∃ sp : Spintax, New (esc s) = .ret (some sp, none) ∧
      ∀ (fuel : Nat) (rs : RandSrc), Spintax.Spin (fuel + 2) rs sp = .ret s := by
  refine ⟨_, New_literal _ (esc s) (scan_esc s), ?_⟩
  intro fuel rs
  simp only [Spintax.Spin, spin_literal]
  by_cases hs : s = []
  · simp [hs, esc]
  · simp [(esc_eq_nil s).not.mpr hs, unescape_esc]

theorem scan_plainRune_of_noDelimiter (q : Char → Bool) (t : List Char)
    (h1 : '{' ∉ t) (h2 : '[' ∉ t) (h3 : scan noDelimiter q t = true) :
    scan plainRune q t = true := by
  induction t using scan.induct noDelimiter q with
  | case1 => rfl
  | case2 c =>
    simp [scan, noDelimiter] at h3
    simp at h1 h2
    simp [scan, plainRune, h3.1, h3.2.1, h3.2.2, Ne.symm h1, Ne.symm h2]
  | case3 d rest ih =>
    simp [scan] at h3
    simp only [List.mem_cons, not_or] at h1 h2
    simp [scan, h3.1, ih h1.2.2 h2.2.2 h3.2]
  | case4 c d rest hc ih =>
    simp [scan, hc, noDelimiter] at h3
    have h1' : '{' ∉ d :: rest := fun h => h1 (List.mem_cons_of_mem _ h)
    have h2' : '[' ∉ d :: rest := fun h => h2 (List.mem_cons_of_mem _ h)
    have hc1 : c ≠ '{' := fun h => h1 (by simp [h])
    have hc2 : c ≠ '[' := fun h => h2 (by simp [h])
    simp [scan, hc, plainRune, hc1, hc2, h3.1.1, h3.1.2, ih h1' h2' h3.2]

theorem unescaped_of_no_backslash (t : List Char) (h : '\\' ∉ t) : unescaped t = t := by
  induction t using unescaped.induct with
  | case1 => rfl
  | case2 c => rfl
  | case3 d rest _ => simp at h
  | case4 c d rest hc ih =>
    have h' : '\\' ∉ d :: rest := fun hm => h (List.mem_cons_of_mem _ hm)
    simp [unescaped, hc, ih h']

/-- C2, as stated, fails: the template `a|b` holds no `{` and no `[`, yet
compiling it returns the leftover-token error and no compiled object. -/
theorem C2_stray_delimiter_counterexample :
    '{' ∉ ['a', '|', 'b'] ∧ '[' ∉ ['a', '|', 'b'] ∧
      New ['a', '|', 'b']
        = .ret (none, some (error.annotate
            (error.new "Leftover tokens after expression parse") "unable to parse tokens")) := by
  refine ⟨by decide, by decide, ?_⟩
  rfl

/-- An escaped newline keeps its backslash: the template `a\⏎b` (a
backslash before a newline) compiles, and spinning returns it with its
backslash, since the pattern `.` of `slashes` does not match a newline. -/
theorem escaped_newline_keeps_backslash :
    ∃ sp : Spintax, New ['a', '\\', '\n', 'b'] = .ret (some sp, none) ∧
      ∀ (fuel : Nat) (rs : RandSrc),
        Spintax.Spin (fuel + 2) rs sp = .ret ['a', '\\', '\n', 'b'] := by
  refine ⟨_, New_literal (fun _ => true) _ (by decide), ?_⟩
  intro fuel rs
  simp only [Spintax.Spin, spin_literal]
  rfl

/-- C2, amended. Literal round trip: for every template that contains no `{`
and no `[`, no `}` and no `|` outside a backslash escape, no escaped newline
and no final backslash that escapes nothing, compiling returns a compiled
object and no error, and spinning it returns the template with every backslash
escape replaced by the rune it escapes, which is the template itself when it
has no backslash. -/
theorem C2_literal_round_trip (t : List Char) (h1 : '{' ∉ t) (h2 : '[' ∉ t)
    (h3 : scan noDelimiter notNewline t = true) :
    ∃ sp : Spintax, New t = .ret (some sp, none) ∧
      (∀ (fuel : Nat) (rs : RandSrc), Spintax.Spin (fuel + 2) rs sp = .ret (unescaped t)) ∧
      ('\\' ∉ t → unescaped t = t) := by
  have hs := scan_plainRune_of_noDelimiter notNewline t h1 h2 h3
  refine ⟨_, New_literal _ t hs, ?_, unescaped_of_no_backslash t⟩
  intro fuel rs
  simp only [Spintax.Spin, spin_literal]
  by_cases ht : t = []
  · simp [ht, unescaped]
  · simp [ht, unescape_eq_unescaped _ t h3]

/-- C2 at the template `a\|b`: it compiles, and spins to `a|b`. -/
theorem C2_literal_round_trip_witness :
    ∃ sp : Spintax, New ['a', '\\', '|', 'b'] = .ret (some sp, none) ∧
      (∀ (fuel : Nat) (rs : RandSrc),
        Spintax.Spin (fuel + 2) rs sp = .ret (unescaped ['a', '\\', '|', 'b'])) ∧
      ('\\' ∉ ['a', '\\', '|', 'b'] → unescaped ['a', '\\', '|', 'b'] = ['a', '\\', '|', 'b']) :=
  C2_literal_round_trip ['a', '\\', '|', 'b'] (by decide) (by decide) (by decide)

/-! ## Tokenizing ordinary text -/

theorem ordinary_iff (c : Char) :
    ordinary c = true ↔ c ≠ '{' ∧ c ≠ '}' ∧ c ≠ '[' ∧ c ≠ '|' ∧ c ≠ '\\' := by
  simp [ordinary, and_assoc]

theorem tokLoop_append (a b : List Char) :
    ∀ (k : Nat) (st : TokSt),
      tokLoop (a ++ b) k st
        = match tokLoop a k st with
          | .error e => .error e
          | .ok st' => tokLoop b (k + utf8Len a) st' := by
  induction a with
  | nil => intro k st; simp [tokLoop, utf8Len]
  | cons c a ih =>
    intro k st
    simp only [List.cons_append, tokLoop]
    cases tokStep k c st with
    | error e => rfl
    | ok st' =>
      have e := ih (k + c.utf8Size) st'
      simp only [utf8Len, List.map_cons, List.sum_cons, ← Nat.add_assoc] at e ⊢
      exact e

theorem tokLoop_ordinary (t : List Char) (h : ∀ c ∈ t, ordinary c = true) :
    ∀ (k : Nat) (toks : List (List Char)) (tmp : List Char),
      tokLoop t k { tokens := toks, state := TEXT, tmp := tmp, escape := false }
        = .ok { tokens := toks, state := TEXT, tmp := tmp ++ t, escape := false } := by
  induction t with
  | nil => intro k toks tmp; simp [tokLoop]
  | cons c t ih =>
    intro k toks tmp
    obtain ⟨h1, h2, h3, h4, h5⟩ := (ordinary_iff c).1 (h c (by simp))
    have e1 := ih (fun d hd => h d (List.mem_cons_of_mem _ hd)) (k + c.utf8Size) toks (tmp ++ [c])
    rw [tokLoop]
    simp [tokStep, h1, h2, h3, h4, h5]
    simpa using e1

theorem literalToken_of_ordinary (t : List Char) (h : ∀ c ∈ t, ordinary c = true)
    (hne : t ≠ []) : literalToken t := by
  cases t with
  | nil => exact absurd rfl hne
  | cons c r =>
    obtain ⟨h1, h2, h3, h4, h5⟩ := (ordinary_iff c).1 (h c (by simp))
    simp [literalToken, h1, h2, h3, h4]

theorem unescape_of_no_backslash (t : List Char) (h : '\\' ∉ t) : unescape t = t := by
  induction t using unescape.induct with
  | case1 => rfl
  | case2 c => rfl
  | case3 c d rest hc ih => simp [hc.1] at h
  | case4 c d rest hc ih =>
    have h' : '\\' ∉ d :: rest := fun hm => h (List.mem_cons_of_mem _ hm)
    have hc' : c ≠ '\\' := fun hm => h (by simp [hm])
    simp [unescape, hc', ih h']

theorem no_backslash_of_ordinary (t : List Char) (h : ∀ c ∈ t, ordinary c = true) :
    '\\' ∉ t := fun hm => ((ordinary_iff _).1 (h _ hm)).2.2.2.2 rfl

theorem tokenize_ordinary_delim (u v : List Char) (d : Char) (hd : d = '}' ∨ d = '|')
    (hu : ∀ c ∈ u, ordinary c = true) (hv : ∀ c ∈ v, ordinary c = true) :
    tokenize (u ++ d :: v) = .ok (flush (flush [] u ++ [[d]]) v) := by
  have hstep : ∀ k, tokStep k d { tokens := [], state := TEXT, tmp := u, escape := false }
      = .ok { tokens := flush [] u ++ [[d]], state := TEXT, tmp := [], escape := false } := by
    intro k
    rcases hd with hd | hd <;> subst hd <;> simp [tokStep]
  simp only [tokenize, tokLoop_append, tokLoop_ordinary u hu, List.nil_append]
  simp only [tokLoop, hstep, tokLoop_ordinary v hv, List.nil_append]

/-- C10. A stray delimiter at top level is a compile error: for all texts `u`
and `v` free of `{`, `}`, `[`, `|` and `\`, compiling `u}v` and compiling
`u|v` both return the leftover-token error and no compiled object. -/
theorem C10_stray_delimiter_is_error (u v : List Char)
    (hu : ∀ c ∈ u, ordinary c = true) (hv : ∀ c ∈ v, ordinary c = true) :
    New (u ++ '}' :: v)
        = .ret (none, some (error.annotate
            (error.new "Leftover tokens after expression parse") "unable to parse tokens")) ∧
    New (u ++ '|' :: v)
        = .ret (none, some (error.annotate
            (error.new "Leftover tokens after expression parse") "unable to parse tokens")) := by
  have key : ∀ d : Char, d = '}' ∨ d = '|' →
      New (u ++ d :: v) = .ret (none, some (error.annotate
        (error.new "Leftover tokens after expression parse") "unable to parse tokens")) := by
    intro d hd
    have hd' : [d] = ['|'] ∨ [d] = ['}'] := by rcases hd with h | h <;> simp [h]
    simp only [New, tokenize_ordinary_delim u v d hd hu hv, Spintax.parse, parseFuel,
      parseExpression]
    by_cases hne : u = []
    · subst hne
      simp only [flush_nil, List.nil_append]
      cases v with
      | nil =>
        simp only [flush_nil]
        rw [parseExpressionLoop_delim _ _ _ _ hd']
        simp [Wrap]
      | cons c r =>
        simp only [flush_cons, List.singleton_append]
        rw [parseExpressionLoop_delim _ _ _ _ hd']
        simp [Wrap]
    · obtain ⟨c, r, rfl⟩ := List.exists_cons_of_ne_nil hne
      have hl := literalToken_of_ordinary (c :: r) hu hne
      cases v with
      | nil =>
        simp only [flush_nil, flush_cons, List.nil_append, List.cons_append]
        rw [show 3 * [c :: r, [d]].length + 3 = 7 + 1 + 1 from rfl,
          parseExpressionLoop_literal _ _ _ _ hl, parseExpressionLoop_delim _ _ _ _ hd']
        simp [Wrap]
      | cons c2 r2 =>
        simp only [flush_cons, List.nil_append, List.cons_append]
        rw [show 3 * [c :: r, [d], c2 :: r2].length + 3 = 10 + 1 + 1 from rfl,
          parseExpressionLoop_literal _ _ _ _ hl, parseExpressionLoop_delim _ _ _ _ hd']
        simp [Wrap]
  exact ⟨key '}' (Or.inl rfl), key '|' (Or.inr rfl)⟩

/-- C10 at `u = "a"`, `v = "b"`: compiling `a}b` and `a|b` fails. -/
theorem C10_stray_delimiter_is_error_witness :
    New ['a', '}', 'b']
        = .ret (none, some (error.annotate
            (error.new "Leftover tokens after expression parse") "unable to parse tokens")) ∧
    New ['a', '|', 'b']
        = .ret (none, some (error.annotate
            (error.new "Leftover tokens after expression parse") "unable to parse tokens")) :=
  C10_stray_delimiter_is_error ['a'] ['b'] (by decide) (by decide)

/-! ## Variables -/

theorem scan_of_ordinary (q : Char → Bool) (t : List Char) (h : ∀ c ∈ t, ordinary c = true) :
    scan plainRune q t = true := by
  induction t using scan.induct plainRune q with
  | case1 => rfl
  | case2 c =>
    obtain ⟨h1, h2, h3, h4, h5⟩ := (ordinary_iff c).1 (h c (by simp))
    simp [scan, plainRune, h1, h2, h3, h4, h5]
  | case3 d rest ih =>
    exact absurd rfl ((ordinary_iff _).1 (h '\\' (by simp))).2.2.2.2
  | case4 c d rest hc ih =>
    obtain ⟨h1, h2, h3, h4, h5⟩ := (ordinary_iff c).1 (h c (by simp))
    simp [scan, plainRune, h1, h2, h3, h4, h5,
      ih (fun e he => h e (List.mem_cons_of_mem _ he))]

theorem tokLoop_variable (x : List Char) (h1 : ']' ∉ x) (h2 : '\\' ∉ x) :
    ∀ (k : Nat) (toks : List (List Char)) (tmp : List Char),
      tokLoop x k { tokens := toks, state := VARIABLE, tmp := tmp, escape := false }
        = .ok { tokens := toks, state := VARIABLE, tmp := tmp ++ x, escape := false } := by
  induction x with
  | nil => intro k toks tmp; simp [tokLoop]
  | cons c x ih =>
    intro k toks tmp
    simp only [List.mem_cons, not_or] at h1 h2
    have e1 := ih h1.2 h2.2 (k + c.utf8Size) toks (tmp ++ [c])
    rw [tokLoop]
    simp [tokStep, Ne.symm h1.1, Ne.symm h2.1, VARIABLE, TEXT, OPEN_BRACE, OPEN_BRACE_COLON]
    simpa [VARIABLE] using e1

theorem tokenize_variable (x : List Char) (hx : x ≠ []) (h1 : ']' ∉ x) (h2 : '\\' ∉ x) :
    tokenize ('[' :: x ++ [']']) = .ok [['['], x, [']']] := by
  have hstep : ∀ k, tokStep k '[' { tokens := [], state := TEXT, tmp := [], escape := false }
      = .ok { tokens := [['[']], state := VARIABLE, tmp := [], escape := false } := by
    intro k; simp [tokStep, flush]
  have hclose : ∀ k, tokStep k ']' ⟨[['[']], VARIABLE, x, false⟩
      = .ok ⟨[['['], x, [']']], TEXT, [], false⟩ := by
    intro k; simp [tokStep, flush, hx, VARIABLE, TEXT, OPEN_BRACE, OPEN_BRACE_COLON]
  have e : tokLoop ('[' :: (x ++ [']'])) 0 ⟨[], TEXT, [], false⟩
      = .ok ⟨[['['], x, [']']], TEXT, [], false⟩ := by
    rw [tokLoop, hstep]
    simp only []
    rw [tokLoop_append, tokLoop_variable x h1 h2]
    simp only [List.nil_append, tokLoop, hclose]
  rw [tokenize, List.cons_append, e]
  simp [flush]

theorem New_variable (x : List Char) (hx : x ≠ []) (h1 : ']' ∉ x) (h2 : '\\' ∉ x) :
    New ('[' :: x ++ [']'])
      = .ret (some { symbolTable := fun _ => none,
                     expression := some (expression.mk
                       [expressionElement.sptx (some (spintax.variable x))]) },
              none) := by
  simp only [New, tokenize_variable x hx h1 h2, Spintax.parse, parseFuel, parseExpression]
  simp [parseExpressionLoop, parseSpintax, parseSpintaxLoop]

theorem tokenize_ordinary (t : List Char) (h : ∀ c ∈ t, ordinary c = true) :
    tokenize t = .ok (flush [] t) :=
  tokenize_text_scan (fun _ => true) t (scan_of_ordinary _ t h)

theorem Define_ordinary (s : Spintax) (x t : List Char) (h : ∀ c ∈ t, ordinary c = true) :
    s.Define x t
      = .ret ({ s with symbolTable := fun k =>
                  if k = x then some (literalExpression t) else s.symbolTable k }, none) := by
  have hp := parseExpression_literal (fun _ => true) t (scan_of_ordinary _ t h)
    (3 * (flush [] t).length + 1)
  simp only [Spintax.Define, tokenize_ordinary t h, parseFuel]
  rw [show 3 * (flush [] t).length + 3 = 3 * (flush [] t).length + 1 + 2 from rfl, hp]
  simp [literalExpression, unescape_of_no_backslash t (no_backslash_of_ordinary t h)]

theorem spin_variable_defined (fuel : Nat) (rs : RandSrc) (tbl : List Char → Option expression)
    (x t : List Char) (h : tbl x = some (literalExpression t)) :
    Spintax.Spin (fuel + 5) rs
        { symbolTable := tbl,
          expression := some (expression.mk
            [expressionElement.sptx (some (spintax.variable x))]) }
      = .ret t := by
  by_cases ht : t = [] <;>
    simp [Spintax.Spin, expression.spin, spinLoop, expressionElement.spin, spintax.spin, h,
      literalExpression, ht]

/-- C6. Late-bound variable resolution: for every non-empty symbol `x` without
`]` and `\` and every text `t` free of `{`, `}`, `[`, `|`, `\`, compiling `[x]`
returns a compiled object `s` and no error while `x` is undefined in its
table; `s.Define(x, t)` then returns no error, and spinning the object after
that call returns `t`, whatever the random source. -/
theorem C6_late_bound_variable (x t : List Char) (hx : x ≠ []) (h1 : ']' ∉ x) (h2 : '\\' ∉ x)
    (ht : ∀ c ∈ t, ordinary c = true) :
    ∃ s : Spintax, New ('[' :: x ++ [']']) = .ret (some s, none) ∧ s.symbolTable x = none ∧
      ∃ s1 : Spintax, s.Define x t = .ret (s1, none) ∧
        ∀ (fuel : Nat) (rs : RandSrc), Spintax.Spin (fuel + 5) rs s1 = .ret t := by
  refine ⟨_, New_variable x hx h1 h2, rfl, _, Define_ordinary _ x t ht, ?_⟩
  intro fuel rs
  exact spin_variable_defined fuel rs _ x t (by simp)

/-- C6 at `x = "x"`, `t = "hi"`. -/
theorem C6_late_bound_variable_witness :
    ∃ s : Spintax, New ('[' :: ['x'] ++ [']']) = .ret (some s, none) ∧
      s.symbolTable ['x'] = none ∧
      ∃ s1 : Spintax, s.Define ['x'] ['h', 'i'] = .ret (s1, none) ∧
        ∀ (fuel : Nat) (rs : RandSrc), Spintax.Spin (fuel + 5) rs s1 = .ret ['h', 'i'] :=
  C6_late_bound_variable ['x'] ['h', 'i'] (by decide) (by decide) (by decide) (by decide)

/-- C7. Redefinition replaces: for every non-empty symbol `x` without `]` and
`\` and all texts `t1`, `t2` free of `{`, `}`, `[`, `|`, `\`, after compiling
`[x]` and calling `Define(x, t1)` and then `Define(x, t2)`, none of which
returns an error, spinning returns `t2`: the variable node parsed before the
redefinition sees the latest definition only. -/
theorem C7_redefinition_replaces (x t1 t2 : List Char) (hx : x ≠ []) (h1 : ']' ∉ x)
    (h2 : '\\' ∉ x) (ht1 : ∀ c ∈ t1, ordinary c = true) (ht2 : ∀ c ∈ t2, ordinary c = true) :
    ∃ s s1 s2 : Spintax, New ('[' :: x ++ [']']) = .ret (some s, none) ∧
      s.Define x t1 = .ret (s1, none) ∧ s1.Define x t2 = .ret (s2, none) ∧
      ∀ (fuel : Nat) (rs : RandSrc), Spintax.Spin (fuel + 5) rs s2 = .ret t2 := by
  refine ⟨_, _, _, New_variable x hx h1 h2, Define_ordinary _ x t1 ht1,
    Define_ordinary _ x t2 ht2, ?_⟩
  intro fuel rs
  exact spin_variable_defined fuel rs _ x t2 (by simp)

/-- C7 at `x = "x"`, `t1 = "hi"`, `t2 = "yo"`. -/
theorem C7_redefinition_replaces_witness :
    ∃ s s1 s2 : Spintax, New ('[' :: ['x'] ++ [']']) = .ret (some s, none) ∧
      s.Define ['x'] ['h', 'i'] = .ret (s1, none) ∧
      s1.Define ['x'] ['y', 'o'] = .ret (s2, none) ∧
      ∀ (fuel : Nat) (rs : RandSrc), Spintax.Spin (fuel + 5) rs s2 = .ret ['y', 'o'] :=
  C7_redefinition_replaces ['x'] ['h', 'i'] ['y', 'o'] (by decide) (by decide) (by decide)
    (by decide) (by decide)

/-- C8. An undefined variable fails at spin time, not at parse time: for every
non-empty symbol `x` without `]` and `\`, compiling `[x]` returns a compiled
object and no error, with `x` undefined in its table; and under every table
that leaves `x` undefined, spinning panics (the lookup yields a nil expression
that is then dereferenced) once the evaluator has fuel for its four nested
calls, and with no amount of fuel does it return a string. -/
theorem C8_undefined_variable_panics (x : List Char) (hx : x ≠ []) (h1 : ']' ∉ x)
    (h2 : '\\' ∉ x) :
    ∃ s : Spintax, New ('[' :: x ++ [']']) = .ret (some s, none) ∧ s.symbolTable x = none ∧
      ∀ tbl : List Char → Option expression, tbl x = none →
        ∀ (fuel : Nat) (rs : RandSrc),
          Spintax.Spin (fuel + 4) rs { s with symbolTable := tbl } = .panic ∧
          ∀ str : List Char, Spintax.Spin fuel rs { s with symbolTable := tbl } ≠ .ret str := by
  refine ⟨_, New_variable x hx h1 h2, rfl, ?_⟩
  intro tbl htbl fuel rs
  constructor
  · simp [Spintax.Spin, expression.spin, spinLoop, expressionElement.spin, spintax.spin, htbl]
  · intro str
    match fuel with
    | 0 => simp [Spintax.Spin, expression.spin]
    | 1 => simp [Spintax.Spin, expression.spin, spinLoop, expressionElement.spin]
    | 2 =>
      simp [Spintax.Spin, expression.spin, spinLoop, expressionElement.spin, spintax.spin]
    | 3 =>
      simp [Spintax.Spin, expression.spin, spinLoop, expressionElement.spin, spintax.spin]
    | n + 4 =>
      simp [Spintax.Spin, expression.spin, spinLoop, expressionElement.spin, spintax.spin, htbl]

/-- C8 at `x = "missing"`. -/
theorem C8_undefined_variable_panics_witness :
    ∃ s : Spintax,
      New ('[' :: ['m', 'i', 's', 's', 'i', 'n', 'g'] ++ [']']) = .ret (some s, none) ∧
      s.symbolTable ['m', 'i', 's', 's', 'i', 'n', 'g'] = none ∧
      ∀ tbl : List Char → Option expression, tbl ['m', 'i', 's', 's', 'i', 'n', 'g'] = none →
        ∀ (fuel : Nat) (rs : RandSrc),
          Spintax.Spin (fuel + 4) rs { s with symbolTable := tbl } = .panic ∧
          ∀ str : List Char, Spintax.Spin fuel rs { s with symbolTable := tbl } ≠ .ret str :=
  C8_undefined_variable_panics ['m', 'i', 's', 's', 'i', 'n', 'g'] (by decide) (by decide)
    (by decide)

/-! ## Pickers -/

theorem alternatives_eq_intercalate (as : List (List Char)) :
    alternatives as = List.intercalate ['|'] as := by
  induction as using alternatives.induct with
  | case1 => rfl
  | case2 a => simp [alternatives, List.intercalate]
  | case3 a b rest ih =>
    simp only [alternatives, ih]
    simp [List.intercalate, List.intersperse]

theorem tokLoop_body (as : List (List Char)) (h : ∀ a ∈ as, ∀ c ∈ a, ordinary c = true) :
    ∀ (k : Nat) (toks : List (List Char)),
      tokLoop (alternatives as ++ ['}']) k
          { tokens := toks, state := TEXT, tmp := [], escape := false }
        = .ok { tokens := toks ++ bodyTokens as, state := TEXT, tmp := [], escape := false } := by
  induction as using alternatives.induct with
  | case1 =>
    intro k toks
    simp [alternatives, bodyTokens, tokLoop, tokStep, flush]
  | case2 a =>
    intro k toks
    have ha := h a (by simp)
    simp only [alternatives, bodyTokens]
    rw [tokLoop_append, tokLoop_ordinary a ha]
    simp [tokLoop, tokStep, flush]
    by_cases hne : a = [] <;> simp [hne]
  | case3 a b rest ih =>
    intro k toks
    have ha := h a (by simp)
    have ih' := ih (fun x hx => h x (List.mem_cons_of_mem _ hx))
    simp only [alternatives, bodyTokens, List.append_assoc, List.cons_append]
    rw [tokLoop_append, tokLoop_ordinary a ha]
    simp only [List.nil_append]
    rw [tokLoop]
    simp only [tokStep]
    simp only [show (!false && decide ('|' = '\\')) = false from by decide,
      show ('|' = '{') = False from by decide, show ('|' = '[') = False from by decide]
    simp only [if_true, if_false, Bool.false_eq_true, true_or, or_true]
    rw [ih']
    by_cases hne : a = [] <;> simp [hne, flush]

theorem tokenize_numberedPicker (k : Nat) (hk : k ≤ 9) (as : List (List Char))
    (h : ∀ a ∈ as, ∀ c ∈ a, ordinary c = true) :
    tokenize (numberedPicker k as)
      = .ok (['{', ':'] :: [Nat.digitChar k] :: [':'] :: bodyTokens as) := by
  have hb := fun j => tokLoop_body as h j [['{', ':'], [Nat.digitChar k], [':']]
  simp only [tokenize, numberedPicker]
  interval_cases k <;>
    simp [tokLoop, tokStep, flush, isDigit, Nat.digitChar, TEXT, OPEN_BRACE,
      OPEN_BRACE_COLON] <;>
    simp [TEXT, Nat.digitChar] at hb <;>
    simp [hb, flush]

theorem ParseInt_digitChar (k : Nat) (hk : k ≤ 9) : ParseInt [Nat.digitChar k] = some (k : Int) := by
  interval_cases k <;> rfl

theorem parseExpressionLoop_alternative (f : Nat) (a d : List Char) (rest : List (List Char))
    (ha : ∀ c ∈ a, ordinary c = true) (hd : d = ['|'] ∨ d = ['}']) :
    parseExpressionLoop (f + 2) (flush [] a ++ d :: rest) []
      = .ret (some (literalExpression a), d :: rest, none) := by
  by_cases hne : a = []
  · subst hne
    simp [flush, parseExpressionLoop_delim _ _ _ _ hd, literalExpression]
  · have hl := literalToken_of_ordinary a ha hne
    simp [flush, hne, parseExpressionLoop_literal _ _ _ _ hl,
      parseExpressionLoop_delim _ _ _ _ hd, literalExpression,
      unescape_of_no_backslash a (no_backslash_of_ordinary a ha)]

theorem flush_append_cons_ne_nil (a d : List Char) (rest : List (List Char)) :
    ∃ t ts, flush [] a ++ d :: rest = t :: ts := by
  by_cases hne : a = [] <;> simp [flush, hne]

theorem parseSpintaxLoop_bar (f : Nat) (k : Int) (acc : List (Option expression))
    (a : List Char) (rest : List (List Char)) (ha : ∀ c ∈ a, ordinary c = true) :
    parseSpintaxLoop (f + 3) (spintax.picker k acc) (flush [] a ++ ['|'] :: rest)
      = parseSpintaxLoop (f + 2)
          (spintax.picker k (acc ++ [some (literalExpression a)])) rest := by
  obtain ⟨t, ts, e⟩ := flush_append_cons_ne_nil a ['|'] rest
  have hp := parseExpressionLoop_alternative f a ['|'] rest ha (Or.inl rfl)
  rw [e] at hp ⊢
  rw [parseSpintaxLoop]
  simp only [hp]
  simp

theorem parseSpintaxLoop_close (f : Nat) (k : Int) (acc : List (Option expression))
    (a : List Char) (rest : List (List Char)) (ha : ∀ c ∈ a, ordinary c = true) :
    parseSpintaxLoop (f + 3) (spintax.picker k acc) (flush [] a ++ ['}'] :: rest)
      = if k > ((acc ++ [some (literalExpression a)]).length : Int) then
          .ret (none, [], none)
        else
          .ret (some (spintax.picker k (acc ++ [some (literalExpression a)])), rest, none) := by
  obtain ⟨t, ts, e⟩ := flush_append_cons_ne_nil a ['}'] rest
  have hp := parseExpressionLoop_alternative f a ['}'] rest ha (Or.inr rfl)
  rw [e] at hp ⊢
  rw [parseSpintaxLoop]
  simp only [hp]
  simp [WithMessage]

theorem parseSpintaxLoop_body (k : Int) (as : List (List Char))
    (h : ∀ a ∈ as, ∀ c ∈ a, ordinary c = true) (hne : as ≠ []) :
    ∀ (m : Nat) (acc : List (Option expression)),
      parseSpintaxLoop (m + as.length + 2) (spintax.picker k acc) (bodyTokens as)
        = if k > ((acc ++ as.map (fun a => some (literalExpression a))).length : Int) then
            .ret (none, [], none)
          else
            .ret (some (spintax.picker k
              (acc ++ as.map (fun a => some (literalExpression a)))), [], none) := by
  induction as using bodyTokens.induct with
  | case1 => exact absurd rfl hne
  | case2 a =>
    intro m acc
    have ha := h a (by simp)
    simp only [bodyTokens, List.length_singleton, List.map_cons, List.map_nil]
    exact parseSpintaxLoop_close m k acc a [] ha
  | case3 a b rest ih =>
    intro m acc
    have ha := h a (by simp)
    have ih' := ih (fun x hx => h x (List.mem_cons_of_mem _ hx)) (by simp) m
      (acc ++ [some (literalExpression a)])
    simp only [bodyTokens, List.length_cons, List.map_cons]
    rw [show m + (rest.length + 1 + 1) + 2 = (m + rest.length + 1) + 3 from by omega,
      parseSpintaxLoop_bar _ k acc a _ ha]
    rw [show m + rest.length + 1 + 2 = m + (b :: rest).length + 2 from by simp; omega, ih']
    simp

theorem length_le_bodyTokens (as : List (List Char)) : as.length ≤ (bodyTokens as).length := by
  induction as using bodyTokens.induct with
  | case1 => simp
  | case2 a => simp [bodyTokens]
  | case3 a b rest ih =>
    simp only [bodyTokens, List.length_append, List.length_cons] at ih ⊢
    omega

theorem parseSpintax_numberedPicker (k : Nat) (hk : k ≤ 9) (as : List (List Char))
    (h : ∀ a ∈ as, ∀ c ∈ a, ordinary c = true) (hne : as ≠ []) (F : Nat)
    (hF : as.length + 3 ≤ F) :
    parseSpintax F (['{', ':'] :: [Nat.digitChar k] :: [':'] :: bodyTokens as)
      = if k > as.length then
          .ret (none, [], none)
        else
          .ret (some (spintax.picker (k : Int)
            (as.map (fun a => some (literalExpression a)))), [], none) := by
  obtain ⟨m, rfl⟩ := Nat.exists_eq_add_of_le hF
  have hb := parseSpintaxLoop_body (k : Int) as h hne m []
  rw [show as.length + 3 + m = (m + as.length + 2) + 1 from by omega, parseSpintax]
  simp only [List.getD_cons_succ, List.getD_cons_zero, ParseInt_digitChar k hk, List.drop_succ_cons,
    List.drop_zero, hb]
  simp

theorem New_numberedPicker (k : Nat) (hk : k ≤ 9) (as : List (List Char))
    (h : ∀ a ∈ as, ∀ c ∈ a, ordinary c = true) (hne : as ≠ []) :
    New (numberedPicker k as)
      = .ret (some { symbolTable := fun _ => none,
                     expression := some (expression.mk [expressionElement.sptx
                       (if k > as.length then none
                        else some (spintax.picker (k : Int)
                          (as.map (fun a => some (literalExpression a)))))]) },
              none) := by
  have hlen := length_le_bodyTokens as
  have hp := parseSpintax_numberedPicker k hk as h hne (3 * (bodyTokens as).length + 11)
    (by omega)
  simp only [New, tokenize_numberedPicker k hk as h, Spintax.parse, parseFuel, parseExpression,
    List.length_cons]
  rw [show 3 * ((bodyTokens as).length + 1 + 1 + 1) + 3
      = (3 * (bodyTokens as).length + 11) + 1 from by omega, parseExpressionLoop]
  simp only [hp]
  by_cases hgt : k > as.length
  · simp [hgt, parseExpressionLoop_nil]
  · simp [hgt, parseExpressionLoop_nil]

theorem spinLoop_ret {α : Type} (f : α → Nat → Outcome (List Char × Nat)) (g : α → List Char)
    (xs : List α) (h : ∀ x ∈ xs, ∀ c, f x c = .ret (g x, c)) :
    ∀ (b : List Char) (c : Nat), spinLoop f xs b c = .ret (b ++ (xs.map g).flatten, c) := by
  induction xs with
  | nil => intro b c; simp [spinLoop]
  | cons x xs ih =>
    intro b c
    simp [spinLoop, h x (by simp), ih (fun y hy => h y (List.mem_cons_of_mem _ hy))]

theorem spin_literalExpression (fuel : Nat) (rs : RandSrc)
    (lookup : List Char → Option expression) (t : List Char) (c : Nat) :
    expression.spin (fuel + 2) rs lookup (some (literalExpression t)) c = .ret (t, c) := by
  rw [literalExpression, spin_literal]
  by_cases ht : t = [] <;> simp [ht]

theorem spin_picker (fuel : Nat) (rs : RandSrc) (hrs : rs.Valid)
    (lookup : List Char → Option expression) (k : Nat) (as : List (List Char))
    (hk : k ≤ as.length) (c : Nat) :
    spintax.spin (fuel + 3) rs lookup
        (some (spintax.picker (k : Int) (as.map (fun a => some (literalExpression a))))) c
      = .ret ((((rs c as.length).take k).map (fun i => as.getD i [])).flatten, c + 1) := by
  have hperm := hrs c as.length
  have hlen : (rs c as.length).length = as.length := by simpa using hperm.length_eq
  have hmem : ∀ i ∈ (rs c as.length).take k, i < as.length := by
    intro i hi
    have := hperm.subset (List.mem_of_mem_take hi)
    simpa using this
  rw [spintax.spin]
  simp only [List.length_map, hlen, Int.toNat_ofNat]
  have hcond : ¬ ((k : Int) < 0 ∨ (k : Int) > (as.length : Int)) := by omega
  rw [if_neg hcond]
  have := spinLoop_ret
    (fun i c1 =>
      match (as.map (fun a => some (literalExpression a)))[i]? with
      | none => Outcome.panic
      | some e => expression.spin (fuel + 2) rs lookup e c1)
    (fun i => as.getD i []) ((rs c as.length).take k)
    (by
      intro i hi c1
      have hi' := hmem i hi
      simp [List.getElem?_map, List.getElem?_eq_getElem hi', spin_literalExpression,
        List.getD_eq_getElem?_getD]) [] (c + 1)
  simpa using this

theorem RandSrc.valid_range : RandSrc.Valid (fun _ n => List.range n) :=
  fun _ _ => List.Perm.refl _

theorem Spin_numberedPicker (fuel : Nat) (rs : RandSrc) (hrs : rs.Valid)
    (lookup : List Char → Option expression) (k : Nat) (as : List (List Char))
    (hk : k ≤ as.length) :
    Spintax.Spin (fuel + 5) rs
        { symbolTable := lookup,
          expression := some (expression.mk [expressionElement.sptx
            (some (spintax.picker (k : Int) (as.map (fun a => some (literalExpression a)))))]) }
      = .ret (((rs 0 as.length).take k).map (fun i => as.getD i [])).flatten := by
  simp [Spintax.Spin, expression.spin, spinLoop, expressionElement.spin,
    spin_picker fuel rs hrs lookup k as hk 0]

theorem take_perm_range (p : List Nat) (n k : Nat) (hp : List.Perm p (List.range n))
    (hk : k ≤ n) :
    (p.take k).length = k ∧ (p.take k).Nodup ∧ ∀ i ∈ p.take k, i < n := by
  refine ⟨?_, ?_, ?_⟩
  · rw [List.length_take, hp.length_eq, List.length_range]; omega
  · exact ((hp.nodup_iff).2 (List.nodup_range n)).sublist (List.take_sublist k p)
  · intro i hi
    simpa using hp.subset (List.mem_of_mem_take hi)

/-- C4. A numbered picker picks `k` distinct alternatives: for every decimal
digit `k` and every list `as` of at least `k` alternatives free of `{`, `}`,
`[`, `|`, `\`, compiling `{:k:a_1|...|a_n}` returns a compiled object and no
error; and for every outcome of the random permutation (a permutation of the
indices of the alternatives the picker holds, one empty alternative when the
list is empty), spinning returns the concatenation of the alternatives at the
first `k` entries of the permutation, in that order: `k` pairwise distinct
indices below `n`. -/
theorem C4_numbered_picker_picks_distinct (k : Nat) (hk : k ≤ 9) (as : List (List Char))
    (h : ∀ a ∈ as, ∀ c ∈ a, ordinary c = true) (hn : k ≤ as.length) :
    ∃ sp : Spintax, New (numberedPicker k as) = .ret (some sp, none) ∧
      ∀ rs : RandSrc, rs.Valid →
        ∃ idx : List Nat, idx = (rs 0 (max as.length 1)).take k ∧ idx.length = k ∧
          idx.Nodup ∧ (∀ i ∈ idx, i < as.length) ∧
          ∀ fuel : Nat, Spintax.Spin (fuel + 5) rs sp
            = .ret (idx.map (fun i => as.getD i [])).flatten := by
  by_cases hne : as = []
  · subst hne
    have hk0 : k = 0 := by simpa using hn
    subst hk0
    have hnew := New_numberedPicker 0 (by omega) [[]] (by simp) (by simp)
    simp only [List.length_singleton, gt_iff_lt, Nat.lt_irrefl, if_false, Nat.not_lt_zero,
      Nat.cast_zero] at hnew
    refine ⟨_, hnew, ?_⟩
    intro rs hrs
    refine ⟨[], by simp, rfl, List.nodup_nil, by simp, ?_⟩
    intro fuel
    have := Spin_numberedPicker fuel rs hrs (fun _ => none) 0 [[]] (by simp)
    simpa using this
  · have hnew := New_numberedPicker k hk as h hne
    rw [if_neg (by omega)] at hnew
    refine ⟨_, hnew, ?_⟩
    intro rs hrs
    have hpos : 0 < as.length := List.length_pos.2 hne
    have hmax : max as.length 1 = as.length := by omega
    obtain ⟨e1, e2, e3⟩ := take_perm_range (rs 0 as.length) as.length k (hrs 0 as.length) hn
    refine ⟨_, by rw [hmax], e1, e2, e3, ?_⟩
    intro fuel
    exact Spin_numberedPicker fuel rs hrs _ k as hn

/-- C4 at `{:2:a|b|c}`. -/
theorem C4_numbered_picker_picks_distinct_witness :
    ∃ sp : Spintax, New (numberedPicker 2 [['a'], ['b'], ['c']]) = .ret (some sp, none) ∧
      ∀ rs : RandSrc, rs.Valid →
        ∃ idx : List Nat, idx = (rs 0 (max [['a'], ['b'], ['c']].length 1)).take 2 ∧
          idx.length = 2 ∧ idx.Nodup ∧ (∀ i ∈ idx, i < [['a'], ['b'], ['c']].length) ∧
          ∀ fuel : Nat, Spintax.Spin (fuel + 5) rs sp
            = .ret (idx.map (fun i => [['a'], ['b'], ['c']].getD i [])).flatten :=
  C4_numbered_picker_picks_distinct 2 (by decide) [['a'], ['b'], ['c']] (by decide) (by decide)

/-- C3 at the alternatives `""` and `":b"`, which are free of `{`, `}`, `[`,
`|`, `\` and the first of which does not start with `:`: the tokenizer is
still in its open-brace state after the `|`, takes the `:` for a numbered
header and fails on the `b`, so compiling `{|:b}` returns an error and no
compiled object. -/
theorem C3_unnumbered_picker_header_after_bar :
    (∀ a ∈ [[], [':', 'b']], ∀ c ∈ a, ordinary c = true) ∧
      ([] : List Char).head? ≠ some ':' ∧
      unnumberedPicker [[], [':', 'b']] = ['{', '|', ':', 'b', '}'] ∧
      tokenize ['{', '|', ':', 'b', '}'] = .error (error.badRune 3) ∧
      New (unnumberedPicker [[], [':', 'b']])
        = .ret (none, some (error.annotate (error.badRune 3)
            "unable to tokenize expression")) := by
  refine ⟨by decide, by decide, rfl, rfl, rfl⟩

/-- C5 at `{:5:a|b}`: the picker asks for 5 of 2 alternatives, yet compiling
returns a compiled object and the nil error (`errors.WithMessage` of a nil
error is nil); the root expression holds a nil spintax node, and spinning the
object panics. -/
theorem C5_too_few_alternatives_no_error :
    numberedPicker 5 [['a'], ['b']] = ['{', ':', '5', ':', 'a', '|', 'b', '}'] ∧
      New (numberedPicker 5 [['a'], ['b']])
        = .ret (some { symbolTable := fun _ => none,
                       expression := some (expression.mk [expressionElement.sptx none]) },
                none) ∧
      ∀ (fuel : Nat) (rs : RandSrc),
        Spintax.Spin (fuel + 3) rs
          { symbolTable := fun _ => none,
            expression := some (expression.mk [expressionElement.sptx none]) } = .panic := by
  refine ⟨rfl, rfl, ?_⟩
  intro fuel rs
  simp [Spintax.Spin, expression.spin, spinLoop, expressionElement.spin, spintax.spin]

/-- C9 at the definition text `a}`: its tokens are `a`, `}` and the parse of
the expression leaves `}` unconsumed, yet `Define` returns the nil error
(`errors.WithMessage` of a nil error is nil); nothing is stored. -/
theorem C9_define_leftover_no_error (s : Spintax) (symbol : List Char) :
    tokenize ['a', '}'] = .ok [['a'], ['}']] ∧
      parseExpression (parseFuel [['a'], ['}']]) [['a'], ['}']]
        = .ret (some (expression.mk [expressionElement.str ['a']]), [['}']], none) ∧
      s.Define symbol ['a', '}'] = .ret (s, none) := by
  refine ⟨rfl, rfl, rfl⟩

/-! ## The parser is total on the fuel it is run with -/

theorem Returned.mono {α : Type} {n m : Nat} {o : Outcome (Parsed α)} (h : Returned n o)
    (hnm : n ≤ m) : Returned m o := by
  obtain ⟨v, ts, err, e, hl⟩ := h
  exact ⟨v, ts, err, e, le_trans hl hnm⟩

theorem parser_returns (F : Nat) :
    (∀ ts els, 3 * ts.length + 1 ≤ F → Returned ts.length (parseExpressionLoop F ts els)) ∧
    (∀ ts, ts ≠ [] → 3 * ts.length ≤ F → Returned (ts.length - 1) (parseSpintax F ts)) ∧
    (∀ sptx ts, 3 * ts.length + 2 ≤ F →
      Returned (ts.length - 1) (parseSpintaxLoop F sptx ts)) := by
  induction F with
  | zero =>
    refine ⟨fun ts els h => by omega, fun ts hne h => ?_, fun sptx ts h => by omega⟩
    cases ts with
    | nil => exact absurd rfl hne
    | cons t r => simp at h
  | succ F ih =>
    obtain ⟨ihE, ihS, ihL⟩ := ih
    refine ⟨?_, ?_, ?_⟩
    · intro ts els h
      cases ts with
      | nil => rw [parseExpressionLoop]; exact ⟨_, _, _, rfl, le_refl _⟩
      | cons next rest =>
        rw [parseExpressionLoop]
        simp only [List.length_cons] at h ⊢
        split
        · obtain ⟨sp, ts1, err, e, hl⟩ := ihS (next :: rest) (by simp)
            (by simp only [List.length_cons]; omega)
          simp only [List.length_cons, Nat.add_sub_cancel] at hl
          rw [e]
          cases err with
          | some e1 => exact ⟨_, _, _, rfl, by simp⟩
          | none => exact (ihE ts1 _ (by omega)).mono (by omega)
        · split
          · exact ⟨_, _, _, rfl, by simp⟩
          · exact (ihE rest _ (by omega)).mono (by omega)
    · intro ts hne h
      cases ts with
      | nil => exact absurd rfl hne
      | cons next rest =>
        rw [parseSpintax]
        simp only [List.length_cons, Nat.add_sub_cancel] at h ⊢
        split
        · split
          · exact ⟨_, _, _, rfl, by simp⟩
          · split
            · exact ⟨_, _, _, rfl, by simp⟩
            · refine (ihL _ _ ?_).mono ?_ <;> simp only [List.length_drop, List.length_cons] <;>
                omega
        · split
          · refine (ihL _ _ ?_).mono ?_ <;> simp only [List.length_drop, List.length_cons] <;>
              omega
          · split
            · refine (ihL _ _ ?_).mono ?_ <;>
                simp only [List.length_drop, List.length_cons] <;> omega
            · exact ⟨_, _, _, rfl, by simp⟩
    · intro sptx ts h
      cases ts with
      | nil => rw [parseSpintaxLoop]; exact ⟨_, _, _, rfl, by simp⟩
      | cons t0 trest =>
        simp only [List.length_cons, Nat.add_sub_cancel] at h ⊢
        rcases sptx with ⟨numToPick, expressions⟩ | ⟨sym⟩
        · rw [parseSpintaxLoop]
          obtain ⟨expr, ts1, err, e, hl⟩ := ihE (t0 :: trest) []
            (by simp only [List.length_cons]; omega)
          simp only [List.length_cons] at hl
          rw [e]
          cases err with
          | some e1 => exact ⟨_, _, _, rfl, by simp⟩
          | none =>
            cases ts1 with
            | nil => exact ⟨_, _, _, rfl, by simp⟩
            | cons next ts2 =>
              simp only [List.length_cons] at hl
              simp only []
              split
              · split
                · exact ⟨_, _, _, rfl, by simp⟩
                · exact ⟨_, _, _, rfl, by omega⟩
              · split
                · exact (ihL _ ts2 (by omega)).mono (by omega)
                · exact ⟨_, _, _, rfl, by simp⟩
        · rw [parseSpintaxLoop]
          split
          · exact ⟨_, _, _, rfl, by simp⟩
          · exact ⟨_, _, _, rfl, by simp only [List.length_drop, List.length_cons]; omega⟩

/-- The parser returns on every token list when run with `parseFuel`: it
neither runs out of fuel nor panics. -/
theorem parseExpression_returns (tokens : List (List Char)) :
    ∃ expr ts err, parseExpression (parseFuel tokens) tokens = .ret (expr, ts, err) := by
  obtain ⟨v, ts, err, e, _⟩ := (parser_returns (parseFuel tokens)).1 tokens []
    (by simp only [parseFuel]; omega)
  exact ⟨v, ts, err, e⟩

/-- `New` returns on every template: it neither runs out of fuel nor panics. -/
theorem New_returns (expr : List Char) : ∃ s err, New expr = .ret (s, err) := by
  simp only [New]
  cases tokenize expr with
  | error e => exact ⟨_, _, rfl⟩
  | ok tokens =>
    obtain ⟨v, ts, err, e⟩ := parseExpression_returns tokens
    simp only [Spintax.parse, e]
    cases err with
    | some e1 => exact ⟨_, _, rfl⟩
    | none =>
      by_cases hts : ts.length > 0
      · simp only [hts, if_true]; exact ⟨_, _, rfl⟩
      · simp only [hts, if_false]; exact ⟨_, _, rfl⟩

/-- `Define` returns on every definition text: it neither runs out of fuel nor panics. -/
theorem Define_returns (s : Spintax) (symbol text : List Char) :
    ∃ s1 err, s.Define symbol text = .ret (s1, err) := by
  simp only [Spintax.Define]
  cases tokenize text with
  | error e => exact ⟨_, _, rfl⟩
  | ok tokens =>
    obtain ⟨v, ts, err, e⟩ := parseExpression_returns tokens
    simp only [e]
    cases err with
    | some e1 => exact ⟨_, _, rfl⟩
    | none =>
      by_cases hts : ts.length > 0
      · simp only [hts, if_true]; exact ⟨_, _, rfl⟩
      · simp only [hts, if_false]; exact ⟨_, _, rfl⟩

/-! ## Claims on parse errors and nesting -/

/-- C11 at `{a` and `{a|b`: the picker is not closed, yet compiling returns a
compiled object and the nil error (`errors.WithMessage` of a nil error is
nil); the root expression holds a nil spintax node. -/
theorem C11_unterminated_picker_no_error :
    unterminatedPicker [['a']] = ['{', 'a'] ∧
      unterminatedPicker [['a'], ['b']] = ['{', 'a', '|', 'b'] ∧
      New (unterminatedPicker [['a']])
        = .ret (some { symbolTable := fun _ => none,
                       expression := some (expression.mk [expressionElement.sptx none]) },
                none) ∧
      New (unterminatedPicker [['a'], ['b']])
        = .ret (some { symbolTable := fun _ => none,
                       expression := some (expression.mk [expressionElement.sptx none]) },
                none) := by
  refine ⟨rfl, rfl, rfl, rfl⟩

/-- C12 at `[x` and `[]`: the variable syntax is malformed, yet compiling
returns a compiled object and the nil error (`errors.WithMessage` of a nil
error is nil); the root expression holds a nil spintax node. -/
theorem C12_malformed_variable_no_error :
    New ['[', 'x']
        = .ret (some { symbolTable := fun _ => none,
                       expression := some (expression.mk [expressionElement.sptx none]) },
                none) ∧
      New ['[', ']']
        = .ret (some { symbolTable := fun _ => none,
                       expression := some (expression.mk [expressionElement.sptx none]) },
                none) := by
  refine ⟨rfl, rfl⟩

/-- C13 at `x{:3:a|b}y`: compiling returns the nil error and a partial tree,
the literal `x` followed by a nil spintax node, the `y` dropped; the tree is
not complete, and spinning it panics under every symbol table although it
holds no variable. -/
theorem C13_partial_tree_returned :
    New ['x', '{', ':', '3', ':', 'a', '|', 'b', '}', 'y']
        = .ret (some { symbolTable := fun _ => none,
                       expression := some (expression.mk
                         [expressionElement.str ['x'], expressionElement.sptx none]) },
                none) ∧
      (expression.mk [expressionElement.str ['x'], expressionElement.sptx none]).wellFormed
        = false ∧
      ∀ (fuel : Nat) (rs : RandSrc) (tbl : List Char → Option expression),
        Spintax.Spin (fuel + 3) rs
          { symbolTable := tbl,
            expression := some (expression.mk
              [expressionElement.str ['x'], expressionElement.sptx none]) } = .panic := by
  refine ⟨rfl, rfl, ?_⟩
  intro fuel rs tbl
  simp [Spintax.Spin, expression.spin, spinLoop, expressionElement.spin, spintax.spin]

theorem perm_range_two (p : List Nat) (h : List.Perm p (List.range 2)) :
    p = [0, 1] ∨ p = [1, 0] := by
  have hlen : p.length = 2 := by simpa using h.length_eq
  have hnd : p.Nodup := (h.nodup_iff).2 (List.nodup_range 2)
  match p, hlen with
  | [a, b], _ =>
    have ha : a < 2 := by simpa using h.subset (List.mem_cons_self a [b])
    have hb : b < 2 := by simpa using h.subset (List.mem_cons_of_mem a (List.mem_cons_self b []))
    have hab : a ≠ b := by simpa using hnd
    have : (a = 0 ∧ b = 1) ∨ (a = 1 ∧ b = 0) := by omega
    rcases this with ⟨rfl, rfl⟩ | ⟨rfl, rfl⟩ <;> simp

/-- C14. Nested pickers: compiling `{a|{b|c}}` returns a compiled object and
no error, and for every outcome of the permutations drawn by the outer and
the inner picker, spinning returns exactly one of `a`, `b`, `c`. -/
theorem C14_nested_picker :
    ∃ sp : Spintax, New ['{', 'a', '|', '{', 'b', '|', 'c', '}', '}'] = .ret (some sp, none) ∧
      ∀ rs : RandSrc, rs.Valid → ∀ fuel : Nat,
        Spintax.Spin (fuel + 8) rs sp = .ret ['a'] ∨
        Spintax.Spin (fuel + 8) rs sp = .ret ['b'] ∨
        Spintax.Spin (fuel + 8) rs sp = .ret ['c'] := by
  refine ⟨{ symbolTable := fun _ => none,
            expression := some (expression.mk [expressionElement.sptx (some (spintax.picker 1
              [some (expression.mk [expressionElement.str ['a']]),
               some (expression.mk [expressionElement.sptx (some (spintax.picker 1
                 [some (expression.mk [expressionElement.str ['b']]),
                  some (expression.mk [expressionElement.str ['c']])]))])]))]) }, rfl, ?_⟩
  intro rs hrs fuel
  rcases perm_range_two _ (hrs 0 2) with h0 | h0 <;>
    rcases perm_range_two _ (hrs 1 2) with h1 | h1 <;>
    simp [Spintax.Spin, expression.spin, spinLoop, expressionElement.spin, spintax.spin, h0, h1]


/-! ## Escapes inside a variable -/

theorem tokenize_variable_escaped (u v : List Char) (hu1 : ']' ∉ u) (hu2 : '\\' ∉ u)
    (hv1 : ']' ∉ v) (hv2 : '\\' ∉ v) :
    tokenize ('[' :: u ++ '\\' :: ']' :: v ++ [']'])
      = .ok [['['], u ++ '\\' :: ']' :: v, [']']] := by
  have hopen : ∀ k, tokStep k '[' ⟨[], TEXT, [], false⟩ = .ok ⟨[['[']], VARIABLE, [], false⟩ := by
    intro k; simp [tokStep, flush]
  have hback : ∀ k, tokStep k '\\' ⟨[['[']], VARIABLE, u, false⟩
      = .ok ⟨[['[']], VARIABLE, u, true⟩ := by
    intro k; simp [tokStep]
  have hesc : ∀ k, tokStep k ']' ⟨[['[']], VARIABLE, u, true⟩
      = .ok ⟨[['[']], VARIABLE, u ++ ['\\', ']'], false⟩ := by
    intro k; simp [tokStep, VARIABLE, TEXT, OPEN_BRACE, OPEN_BRACE_COLON]
  have hclose : ∀ k, tokStep k ']' ⟨[['[']], VARIABLE, u ++ ['\\', ']'] ++ v, false⟩
      = .ok ⟨[['['], u ++ '\\' :: ']' :: v, [']']], TEXT, [], false⟩ := by
    intro k; simp [tokStep, flush, VARIABLE, TEXT, OPEN_BRACE, OPEN_BRACE_COLON]
  have e : tokLoop ('[' :: (u ++ ('\\' :: ']' :: (v ++ [']'])))) 0 ⟨[], TEXT, [], false⟩
      = .ok ⟨[['['], u ++ '\\' :: ']' :: v, [']']], TEXT, [], false⟩ := by
    rw [tokLoop, hopen]
    simp only []
    rw [tokLoop_append, tokLoop_variable u hu1 hu2]
    simp only [List.nil_append]
    rw [tokLoop, hback]
    simp only []
    rw [tokLoop, hesc]
    simp only []
    rw [tokLoop_append, tokLoop_variable v hv1 hv2]
    simp only [tokLoop, hclose]
  have hlist : '[' :: u ++ '\\' :: ']' :: v ++ [']']
      = '[' :: (u ++ ('\\' :: ']' :: (v ++ [']']))) := by simp
  rw [tokenize, hlist, e]
  simp [flush]

theorem New_variable_token (x : List Char) :
    Spintax.parse { symbolTable := fun _ => none, expression := none } [['['], x, [']']]
      = .ret ({ symbolTable := fun _ => none,
                expression := some (expression.mk
                  [expressionElement.sptx (some (spintax.variable x))]) }, none) := by
  simp [Spintax.parse, parseFuel, parseExpression, parseExpressionLoop, parseSpintax,
    parseSpintaxLoop]

theorem spin_variable_undefined (fuel : Nat) (rs : RandSrc)
    (tbl : List Char → Option expression) (x : List Char) (h : tbl x = none) :
    Spintax.Spin (fuel + 4) rs
        { symbolTable := tbl,
          expression := some (expression.mk
            [expressionElement.sptx (some (spintax.variable x))]) }
      = .panic := by
  simp [Spintax.Spin, expression.spin, spinLoop, expressionElement.spin, spintax.spin, h]

/-- C19. A variable's symbol is taken verbatim from the tokenizer, escape
backslash included: for texts `u`, `v` without `]` and `\`, compiling
`[u\]v]` returns no error and builds a variable node whose symbol is `u\]v`;
after `Define(u\]v, t)` spinning returns `t`, while after `Define(u]v, t)` the
symbol is still undefined and spinning panics. -/
theorem C19_variable_symbol_verbatim (u v t : List Char) (hu1 : ']' ∉ u) (hu2 : '\\' ∉ u)
    (hv1 : ']' ∉ v) (hv2 : '\\' ∉ v) (ht : ∀ c ∈ t, ordinary c = true) :
    ∃ s : Spintax, New ('[' :: u ++ '\\' :: ']' :: v ++ [']']) = .ret (some s, none) ∧
      s.expression = some (expression.mk
        [expressionElement.sptx (some (spintax.variable (u ++ '\\' :: ']' :: v)))]) ∧
      (∃ s1 : Spintax, s.Define (u ++ '\\' :: ']' :: v) t = .ret (s1, none) ∧
        ∀ (fuel : Nat) (rs : RandSrc), Spintax.Spin (fuel + 5) rs s1 = .ret t) ∧
      (∃ s2 : Spintax, s.Define (u ++ ']' :: v) t = .ret (s2, none) ∧
        ∀ (fuel : Nat) (rs : RandSrc), Spintax.Spin (fuel + 4) rs s2 = .panic) := by
  have hnew : New ('[' :: u ++ '\\' :: ']' :: v ++ [']'])
      = .ret (some { symbolTable := fun _ => none,
                     expression := some (expression.mk [expressionElement.sptx
                       (some (spintax.variable (u ++ '\\' :: ']' :: v)))]) }, none) := by
    simp only [New, tokenize_variable_escaped u v hu1 hu2 hv1 hv2, New_variable_token]
  have hne : u ++ '\\' :: ']' :: v ≠ u ++ ']' :: v := by
    intro h
    have := congrArg List.length h
    simp at this
  refine ⟨_, hnew, rfl, ⟨_, Define_ordinary _ _ t ht, ?_⟩, ⟨_, Define_ordinary _ _ t ht, ?_⟩⟩
  · intro fuel rs
    exact spin_variable_defined fuel rs _ _ t (by simp)
  · intro fuel rs
    exact spin_variable_undefined fuel rs _ _ (by simp [hne])

/-- C19 at `u = "a"`, `v = "b"`, `t = "hi"`: the template `[a\]b]`. -/
theorem C19_variable_symbol_verbatim_witness :
    ∃ s : Spintax, New ('[' :: ['a'] ++ '\\' :: ']' :: ['b'] ++ [']']) = .ret (some s, none) ∧
      s.expression = some (expression.mk
        [expressionElement.sptx (some (spintax.variable (['a'] ++ '\\' :: ']' :: ['b'])))]) ∧
      (∃ s1 : Spintax, s.Define (['a'] ++ '\\' :: ']' :: ['b']) ['h', 'i'] = .ret (s1, none) ∧
        ∀ (fuel : Nat) (rs : RandSrc), Spintax.Spin (fuel + 5) rs s1 = .ret ['h', 'i']) ∧
      (∃ s2 : Spintax, s.Define (['a'] ++ ']' :: ['b']) ['h', 'i'] = .ret (s2, none) ∧
        ∀ (fuel : Nat) (rs : RandSrc), Spintax.Spin (fuel + 4) rs s2 = .panic) :=
  C19_variable_symbol_verbatim ['a'] ['b'] ['h', 'i'] (by decide) (by decide) (by decide)
    (by decide) (by decide)


/-! ## The numbered-picker header -/

theorem isDigit_cases (c : Char) (h : isDigit c = true) :
    c = '0' ∨ c = '1' ∨ c = '2' ∨ c = '3' ∨ c = '4' ∨
    c = '5' ∨ c = '6' ∨ c = '7' ∨ c = '8' ∨ c = '9' := by
  simpa [isDigit, or_assoc] using h

theorem isDigit_ne_backslash (c : Char) (h : isDigit c = true) : c ≠ '\\' := by
  rcases isDigit_cases c h with h | h | h | h | h | h | h | h | h | h <;> subst h <;> decide

theorem isDigit_utf8Size (c : Char) (h : isDigit c = true) : c.utf8Size = 1 := by
  rcases isDigit_cases c h with h | h | h | h | h | h | h | h | h | h <;> subst h <;> decide

theorem utf8Len_append (a b : List Char) : utf8Len (a ++ b) = utf8Len a + utf8Len b := by
  simp [utf8Len]

theorem utf8Len_cons (c : Char) (a : List Char) : utf8Len (c :: a) = c.utf8Size + utf8Len a := by
  simp [utf8Len]

theorem utf8Len_eq_length (w : List Char) (h : ∀ ch ∈ w, ch.utf8Size = 1) :
    utf8Len w = w.length := by
  induction w with
  | nil => rfl
  | cons c w ih =>
    rw [utf8Len_cons, h c (by simp), ih (fun ch hch => h ch (List.mem_cons_of_mem _ hch))]
    simp [Nat.add_comm]

theorem tokLoop_text_stays (p : List Char) (h1 : '{' ∉ p) (h2 : '[' ∉ p) (h3 : '\\' ∉ p) :
    ∀ (k : Nat) (toks : List (List Char)) (tmp : List Char),
      ∃ toks1 tmp1, tokLoop p k ⟨toks, TEXT, tmp, false⟩ = .ok ⟨toks1, TEXT, tmp1, false⟩ := by
  induction p with
  | nil => intro k toks tmp; exact ⟨toks, tmp, rfl⟩
  | cons c p ih =>
    intro k toks tmp
    simp only [List.mem_cons, not_or] at h1 h2 h3
    have ih' := ih h1.2 h2.2 h3.2
    rw [tokLoop]
    by_cases hd : c = '}' ∨ c = '|'
    · obtain ⟨toks1, tmp1, e⟩ := ih' (k + c.utf8Size) (flush toks tmp ++ [[c]]) []
      refine ⟨toks1, tmp1, ?_⟩
      simp [tokStep, Ne.symm h1.1, Ne.symm h2.1, Ne.symm h3.1, hd]
      exact e
    · obtain ⟨toks1, tmp1, e⟩ := ih' (k + c.utf8Size) toks (tmp ++ [c])
      refine ⟨toks1, tmp1, ?_⟩
      simp only [not_or] at hd
      simp [tokStep, Ne.symm h1.1, Ne.symm h2.1, Ne.symm h3.1, hd.1, hd.2]
      exact e

theorem tokLoop_header_digits (d : List Char) (hd : ∀ ch ∈ d, isDigit ch = true) :
    ∀ (k : Nat) (toks : List (List Char)) (tmp : List Char),
      ∃ tmp1, tokLoop d k ⟨toks, OPEN_BRACE_COLON, tmp, false⟩
        = .ok ⟨toks, OPEN_BRACE_COLON, tmp1, false⟩ := by
  induction d with
  | nil => intro k toks tmp; exact ⟨tmp, rfl⟩
  | cons c d ih =>
    intro k toks tmp
    have hc := hd c (by simp)
    obtain ⟨tmp1, e⟩ := ih (fun ch hch => hd ch (List.mem_cons_of_mem _ hch))
      (k + c.utf8Size) toks [c]
    refine ⟨tmp1, ?_⟩
    rw [tokLoop]
    simp [tokStep, isDigit_ne_backslash c hc, hc, TEXT, OPEN_BRACE, OPEN_BRACE_COLON]
    simpa [OPEN_BRACE_COLON] using e

theorem tokLoop_header_bad_rune (p d r : List Char) (c : Char) (h1 : '{' ∉ p) (h2 : '[' ∉ p)
    (h3 : '\\' ∉ p) (hd : ∀ ch ∈ d, isDigit ch = true) (hc1 : isDigit c = false)
    (hc2 : c ≠ ':') (hc3 : c ≠ '\\') :
    tokLoop (p ++ '{' :: ':' :: (d ++ c :: r)) 0 ⟨[], TEXT, [], false⟩
      = .error (error.badRune (utf8Len (p ++ '{' :: ':' :: d))) := by
  obtain ⟨toks1, tmp1, e1⟩ := tokLoop_text_stays p h1 h2 h3 0 [] []
  obtain ⟨tmp2, e2⟩ := tokLoop_header_digits d hd (0 + utf8Len p + '{'.utf8Size + ':'.utf8Size)
    (flush toks1 tmp1 ++ [['{', ':']]) []
  have hopen : ∀ k, tokStep k '{' ⟨toks1, TEXT, tmp1, false⟩
      = .ok ⟨flush toks1 tmp1, OPEN_BRACE, ['{'], false⟩ := by
    intro k; simp [tokStep]
  have hcolon : ∀ k, tokStep k ':' ⟨flush toks1 tmp1, OPEN_BRACE, ['{'], false⟩
      = .ok ⟨flush toks1 tmp1 ++ [['{', ':']], OPEN_BRACE_COLON, [], false⟩ := by
    intro k; simp [tokStep, TEXT, OPEN_BRACE]
  have hbad : ∀ k, tokStep k c ⟨flush toks1 tmp1 ++ [['{', ':']], OPEN_BRACE_COLON, tmp2, false⟩
      = .error (error.badRune k) := by
    intro k; simp [tokStep, hc1, hc2, hc3, TEXT, OPEN_BRACE, OPEN_BRACE_COLON]
  rw [tokLoop_append, e1]
  simp only []
  rw [tokLoop, hopen]
  simp only []
  rw [tokLoop, hcolon]
  simp only []
  rw [tokLoop_append, e2]
  simp only []
  rw [tokLoop, hbad]
  simp only [utf8Len_append, utf8Len_cons]
  congr 2
  omega

/-- C15. A bad rune in a numbered-picker header is a syntax error that carries
its position: for every text `p` without `{`, `[`, `\`, every (possibly empty)
string `d` of decimal digits, every rune `c` that is not a decimal digit, not
`:` and not `\`, and every rest `r`, tokenizing `p{:dcr` returns the header
error whose position is the byte offset of `c` in the input (the index that
Go's `range` gives), `New` on that input returns that error wrapped and no
compiled object, and the offset is the number of runes before `c` when `p` is
made of one-byte runes. -/
theorem C15_header_error_position (p d r : List Char) (c : Char) (h1 : '{' ∉ p)
    (h2 : '[' ∉ p) (h3 : '\\' ∉ p) (hd : ∀ ch ∈ d, isDigit ch = true)
    (hc1 : isDigit c = false) (hc2 : c ≠ ':') (hc3 : c ≠ '\\') :
    tokenize (p ++ '{' :: ':' :: (d ++ c :: r))
        = .error (error.badRune (utf8Len (p ++ '{' :: ':' :: d))) ∧
      New (p ++ '{' :: ':' :: (d ++ c :: r))
        = .ret (none, some (error.annotate (error.badRune (utf8Len (p ++ '{' :: ':' :: d)))
            "unable to tokenize expression")) ∧
      ((∀ ch ∈ p, ch.utf8Size = 1) →
        utf8Len (p ++ '{' :: ':' :: d) = (p ++ '{' :: ':' :: d).length) := by
  have ht : tokenize (p ++ '{' :: ':' :: (d ++ c :: r))
      = .error (error.badRune (utf8Len (p ++ '{' :: ':' :: d))) := by
    rw [tokenize, tokLoop_header_bad_rune p d r c h1 h2 h3 hd hc1 hc2 hc3]
  refine ⟨ht, ?_, ?_⟩
  · simp [New, ht, Wrap]
  · intro hp
    apply utf8Len_eq_length
    intro ch hch
    simp only [List.mem_append, List.mem_cons] at hch
    rcases hch with h | h | h | h
    · exact hp ch h
    · subst h; decide
    · subst h; decide
    · exact isDigit_utf8Size ch (hd ch h)

/-- C15 at `p = "ab"`, `d = "1"`, `c = 'x'`, `r = ":y}"`: the input `ab{:1x:y}`. -/
theorem C15_header_error_position_witness :
    tokenize (['a', 'b'] ++ '{' :: ':' :: (['1'] ++ 'x' :: [':', 'y', '}']))
        = .error (error.badRune (utf8Len (['a', 'b'] ++ '{' :: ':' :: ['1']))) ∧
      New (['a', 'b'] ++ '{' :: ':' :: (['1'] ++ 'x' :: [':', 'y', '}']))
        = .ret (none, some (error.annotate
            (error.badRune (utf8Len (['a', 'b'] ++ '{' :: ':' :: ['1'])))
            "unable to tokenize expression")) ∧
      ((∀ ch ∈ ['a', 'b'], ch.utf8Size = 1) →
        utf8Len (['a', 'b'] ++ '{' :: ':' :: ['1'])
          = (['a', 'b'] ++ '{' :: ':' :: ['1']).length) :=
  C15_header_error_position ['a', 'b'] ['1'] [':', 'y', '}'] 'x' (by decide) (by decide)
    (by decide) (by decide) (by decide) (by decide) (by decide)


theorem isDigit_ne_colon (c : Char) (h : isDigit c = true) : c ≠ ':' := by
  rcases isDigit_cases c h with h | h | h | h | h | h | h | h | h | h <;> subst h <;> decide

/-- C16 at `{:12:a|b}`: the tokenizer does not fail at the second digit; the
digit case assigns `tmp = char` and drops the buffered `1`, so the tokens are
`{:`, `2`, `:`, `a`, `|`, `b`, `}` and the template is compiled into a picker
whose `numToPick` is 2. -/
theorem C16_second_digit_overwrites :
    isDigit '1' = true ∧ isDigit '2' = true ∧
      tokenize ['{', ':', '1', '2', ':', 'a', '|', 'b', '}']
        = .ok [['{', ':'], ['2'], [':'], ['a'], ['|'], ['b'], ['}']] ∧
      New ['{', ':', '1', '2', ':', 'a', '|', 'b', '}']
        = .ret (some { symbolTable := fun _ => none,
                       expression := some (expression.mk [expressionElement.sptx
                         (some (spintax.picker 2
                           [some (expression.mk [expressionElement.str ['a']]),
                            some (expression.mk [expressionElement.str ['b']])]))]) },
                none) := by
  refine ⟨rfl, rfl, rfl, rfl⟩

/-- What the header state does with two digits: for all decimal digits `d1`,
`d2` and every rest `r`, tokenizing `{:d1d2:r` does not fail at the second
digit; the second digit overwrites the first in `tmp`, the header yields the
tokens `{:`, `d2`, `:`, and the tokenizer goes on with `r` in the `TEXT`
state, at byte offset 5. -/
theorem tokenize_header_two_digits (d1 d2 : Char) (r : List Char)
    (h1 : isDigit d1 = true) (h2 : isDigit d2 = true) :
    tokLoop ['{', ':', d1, d2, ':'] 0 ⟨[], TEXT, [], false⟩
        = .ok ⟨[['{', ':'], [d2], [':']], TEXT, [], false⟩ ∧
      tokenize ('{' :: ':' :: d1 :: d2 :: ':' :: r)
        = (match tokLoop r 5 ⟨[['{', ':'], [d2], [':']], TEXT, [], false⟩ with
          | .error e => .error e
          | .ok st => .ok (flush st.tokens st.tmp)) ∧
      New ['{', ':', '1', '2', ':', 'a', '|', 'b', '}']
        = .ret (some { symbolTable := fun _ => none,
                       expression := some (expression.mk [expressionElement.sptx
                         (some (spintax.picker 2
                           [some (literalExpression ['a']),
                            some (literalExpression ['b'])]))]) },
                none) := by
  have b1 := isDigit_ne_backslash d1 h1
  have b2 := isDigit_ne_backslash d2 h2
  have s1 := isDigit_utf8Size d1 h1
  have s2 := isDigit_utf8Size d2 h2
  have e : tokLoop ['{', ':', d1, d2, ':'] 0 ⟨[], TEXT, [], false⟩
      = .ok ⟨[['{', ':'], [d2], [':']], TEXT, [], false⟩ := by
    have hc : isDigit ':' = false := by decide
    simp [tokLoop, tokStep, flush, h1, h2, b1, b2, hc, TEXT, OPEN_BRACE, OPEN_BRACE_COLON]
  refine ⟨e, ?_, rfl⟩
  have hsplit : '{' :: ':' :: d1 :: d2 :: ':' :: r = ['{', ':', d1, d2, ':'] ++ r := rfl
  have hlen : utf8Len ['{', ':', d1, d2, ':'] = 5 := by
    simp only [utf8Len, List.map_cons, List.map_nil, List.sum_cons, List.sum_nil, s1, s2]
    rfl
  rw [tokenize, hsplit, tokLoop_append, e]
  simp only [hlen, Nat.zero_add]

/-! ## Reachable tokenizer states -/

theorem tokStep_state_text (k : Nat) (c : Char) (toks : List (List Char)) (tmp : List Char)
    (escape : Bool) :
    ∃ st1, tokStep k c ⟨toks, TEXT, tmp, escape⟩ = .ok st1 ∧ st1.state ≤ 3 := by
  cases escape
  · by_cases h0 : c = '\\'
    · exact ⟨_, by simp [tokStep, h0]; rfl, by simp [TEXT]⟩
    · by_cases h1 : c = '{'
      · exact ⟨_, by simp [tokStep, h1]; rfl, by simp [OPEN_BRACE]⟩
      · by_cases h2 : c = '['
        · exact ⟨_, by simp [tokStep, h2]; rfl, by simp [VARIABLE]⟩
        · by_cases h3 : c = '}' ∨ c = '|'
          · exact ⟨_, by simp [tokStep, h0, h1, h2, h3]; rfl, by simp [TEXT]⟩
          · exact ⟨_, by simp [tokStep, h0, h1, h2, h3]; rfl, by simp [TEXT]⟩
  · exact ⟨_, by simp [tokStep]; rfl, by simp [TEXT]⟩

theorem tokStep_state_open_brace (k : Nat) (c : Char) (toks : List (List Char))
    (tmp : List Char) (escape : Bool) :
    ∃ st1, tokStep k c ⟨toks, OPEN_BRACE, tmp, escape⟩ = .ok st1 ∧ st1.state ≤ 3 := by
  have hs : OPEN_BRACE ≠ TEXT := by decide
  cases escape
  · by_cases h0 : c = '\\'
    · exact ⟨_, by simp [tokStep, h0]; rfl, by simp [OPEN_BRACE]⟩
    · by_cases h1 : c = '{'
      · exact ⟨_, by simp [tokStep, h1, hs]; rfl, by simp [OPEN_BRACE]⟩
      · by_cases h4 : c = ':'
        · exact ⟨_, by simp [tokStep, h4, hs]; rfl, by simp [OPEN_BRACE_COLON]⟩
        · by_cases h2 : c = '['
          · exact ⟨_, by simp [tokStep, h2, hs]; rfl, by simp [VARIABLE]⟩
          · by_cases h3 : c = '}' ∨ c = '|'
            · exact ⟨_, by simp [tokStep, h0, h1, h2, h3, h4, hs]; rfl, by simp [OPEN_BRACE]⟩
            · exact ⟨_, by simp [tokStep, h0, h1, h2, h3, h4, hs]; rfl, by simp [TEXT]⟩
  · exact ⟨_, by simp [tokStep, hs]; rfl, by simp [TEXT]⟩

theorem tokStep_state_header (k : Nat) (c : Char) (toks : List (List Char))
    (tmp : List Char) (escape : Bool) :
    (∃ st1, tokStep k c ⟨toks, OPEN_BRACE_COLON, tmp, escape⟩ = .ok st1 ∧ st1.state ≤ 3) ∨
      tokStep k c ⟨toks, OPEN_BRACE_COLON, tmp, escape⟩ = .error (error.badRune k) := by
  have hs1 : OPEN_BRACE_COLON ≠ TEXT := by decide
  have hs2 : OPEN_BRACE_COLON ≠ OPEN_BRACE := by decide
  by_cases h0 : (!escape && decide (c = '\\')) = true
  · exact Or.inl ⟨_, by rw [tokStep, if_pos h0], by simp [OPEN_BRACE_COLON]⟩
  · by_cases h1 : isDigit c = true
    · exact Or.inl ⟨_, by rw [tokStep, if_neg h0]; simp [hs1, hs2, h1]; rfl,
        by simp [OPEN_BRACE_COLON]⟩
    · by_cases h2 : c = ':'
      · exact Or.inl ⟨_, by rw [tokStep, if_neg h0]; simp [hs1, hs2, h1, h2]; rfl,
          by simp [TEXT]⟩
      · exact Or.inr (by rw [tokStep, if_neg h0]; simp [hs1, hs2, h1, h2])

theorem tokStep_state_variable (k : Nat) (c : Char) (toks : List (List Char))
    (tmp : List Char) (escape : Bool) :
    ∃ st1, tokStep k c ⟨toks, VARIABLE, tmp, escape⟩ = .ok st1 ∧ st1.state ≤ 3 := by
  have hs1 : VARIABLE ≠ TEXT := by decide
  have hs2 : VARIABLE ≠ OPEN_BRACE := by decide
  have hs3 : VARIABLE ≠ OPEN_BRACE_COLON := by decide
  cases escape
  · by_cases h0 : c = '\\'
    · exact ⟨_, by simp [tokStep, h0]; rfl, by simp [VARIABLE]⟩
    · by_cases h1 : c = ']'
      · exact ⟨_, by simp [tokStep, h1, hs1, hs2, hs3]; rfl, by simp [TEXT]⟩
      · exact ⟨_, by simp [tokStep, h0, h1, hs1, hs2, hs3]; rfl, by simp [VARIABLE]⟩
  · exact ⟨_, by simp [tokStep, hs1, hs2, hs3]; rfl, by simp [VARIABLE]⟩

theorem tokStep_state (k : Nat) (c : Char) (st : TokSt) (h : st.state ≤ 3) :
    (∃ st1, tokStep k c st = .ok st1 ∧ st1.state ≤ 3) ∨
      (tokStep k c st = .error (error.badRune k) ∧ st.state = OPEN_BRACE_COLON) := by
  obtain ⟨toks, state, tmp, escape⟩ := st
  simp only at h
  have hs : state = TEXT ∨ state = OPEN_BRACE ∨ state = OPEN_BRACE_COLON ∨ state = VARIABLE := by
    simp only [TEXT, OPEN_BRACE, OPEN_BRACE_COLON, VARIABLE]; omega
  rcases hs with rfl | rfl | rfl | rfl
  · exact Or.inl (tokStep_state_text k c toks tmp escape)
  · exact Or.inl (tokStep_state_open_brace k c toks tmp escape)
  · rcases tokStep_state_header k c toks tmp escape with h1 | h1
    · exact Or.inl h1
    · exact Or.inr ⟨h1, rfl⟩
  · exact Or.inl (tokStep_state_variable k c toks tmp escape)

theorem tokLoop_state (w : List Char) :
    ∀ (k : Nat) (st : TokSt), st.state ≤ 3 →
      (∃ st1, tokLoop w k st = .ok st1 ∧ st1.state ≤ 3) ∨
        (∃ k1, tokLoop w k st = .error (error.badRune k1)) := by
  induction w with
  | nil => intro k st h; exact Or.inl ⟨st, rfl, h⟩
  | cons c w ih =>
    intro k st h
    rw [tokLoop]
    rcases tokStep_state k c st h with ⟨st1, e, h1⟩ | ⟨e, _⟩
    · rw [e]; exact ih _ st1 h1
    · rw [e]; exact Or.inr ⟨k, rfl⟩

/-- The state variable of `tokenize` only ever holds one of its four states,
and the only error that `tokenize` returns is the header error of the state
`OPEN_BRACE_COLON`: the error `Unrecognized state` is unreachable. -/
theorem tokenize_error_is_header_error (expr : List Char) (err : error)
    (h : tokenize expr = .error err) : ∃ k, err = error.badRune k := by
  rw [tokenize] at h
  rcases tokLoop_state expr 0 ⟨[], TEXT, [], false⟩ (by simp [TEXT]) with ⟨st1, e, _⟩ | ⟨k1, e⟩
  · rw [e] at h; simp at h
  · rw [e] at h
    simp only [Except.error.injEq] at h
    exact ⟨k1, h.symm⟩

/-- C17 at the input `{|:b`, which does not contain `{:`: the tokenizer is
still in its open-brace state after the `|`, takes the `:` for a
numbered-picker header and fails on the `b`. -/
theorem C17_no_open_brace_colon_yet_error :
    ¬ (['{', ':'] <:+: ['{', '|', ':', 'b']) ∧
      tokenize ['{', '|', ':', 'b'] = .error (error.badRune 3) := by
  refine ⟨by decide, rfl⟩


/-! ## Expressions without spintax -/

theorem parseExpressionLoop_no_opener (ts : List (List Char)) :
    ∀ (els : List expressionElement) (F : Nat), (∀ t ∈ ts, openerToken t = false) →
      ts.length + 1 ≤ F →
      parseExpressionLoop F ts els
        = .ret (some (expression.mk (els ++ (ts.takeWhile notDelimiterToken).map
            (fun t => expressionElement.str (unescape t)))),
          ts.dropWhile notDelimiterToken, none) := by
  induction ts with
  | nil =>
    intro els F _ hF
    obtain ⟨f, rfl⟩ : ∃ f, F = f + 1 := ⟨F - 1, by omega⟩
    simp [parseExpressionLoop_nil]
  | cons t ts ih =>
    intro els F h hF
    obtain ⟨f, rfl⟩ : ∃ f, F = f + 1 := ⟨F - 1, by omega⟩
    have ht := h t (by simp)
    simp only [openerToken, Bool.or_eq_false_iff, decide_eq_false_iff_not] at ht
    obtain ⟨⟨o1, o2⟩, o3⟩ := ht
    by_cases hd : t = ['|'] ∨ t = ['}']
    · have hnd : notDelimiterToken t = false := by
        rcases hd with hd | hd <;> subst hd <;> decide
      rw [parseExpressionLoop_delim _ _ _ _ hd]
      simp [List.takeWhile_cons, List.dropWhile_cons, hnd]
    · have hnd : notDelimiterToken t = true := by
        simp only [not_or] at hd
        simp [notDelimiterToken, hd.1, hd.2]
      simp only [not_or] at hd
      rw [parseExpressionLoop_literal _ _ _ _ ⟨o1, o2, o3, hd.1, hd.2⟩,
        ih _ f (fun x hx => h x (List.mem_cons_of_mem _ hx))
          (by simp only [List.length_cons] at hF; omega)]
      simp [List.takeWhile_cons, List.dropWhile_cons, hnd]

/-- What `parseExpression` does without opener tokens: for every token list
`ts` that holds none of `{`, `{:`, `[`, `parseExpression(ts)`, run with the
fuel of the parser or with any fuel above the number of tokens, returns no
error; its expression holds one string element per token of the longest prefix
of `ts` free of `|` and `}`, in order, each passed through
`slashes.ReplaceAllString` (the un-escaped token when it holds no escaped
newline and no dangling backslash); and the remaining tokens are the rest of
`ts`, empty or beginning with that `|` or `}`. -/
theorem parseExpression_no_opener (ts : List (List Char))
    (h : ∀ t ∈ ts, openerToken t = false) :
    parseExpression (parseFuel ts) ts
        = .ret (some (expression.mk ((ts.takeWhile notDelimiterToken).map
            (fun t => expressionElement.str (unescape t)))),
          ts.dropWhile notDelimiterToken, none) ∧
      (∀ F : Nat, ts.length + 1 ≤ F →
        parseExpression F ts = parseExpression (parseFuel ts) ts) ∧
      ts.takeWhile notDelimiterToken ++ ts.dropWhile notDelimiterToken = ts ∧
      (∀ t ∈ ts.takeWhile notDelimiterToken, t ≠ ['|'] ∧ t ≠ ['}']) ∧
      (ts.dropWhile notDelimiterToken = [] ∨
        ∃ d r, ts.dropWhile notDelimiterToken = d :: r ∧ (d = ['|'] ∨ d = ['}'])) ∧
      (∀ t ∈ ts.takeWhile notDelimiterToken,
        scan (fun _ => true) notNewline t = true → unescape t = unescaped t) := by
  have key : ∀ F : Nat, ts.length + 1 ≤ F →
      parseExpression F ts
        = .ret (some (expression.mk ((ts.takeWhile notDelimiterToken).map
            (fun t => expressionElement.str (unescape t)))),
          ts.dropWhile notDelimiterToken, none) := by
    intro F hF
    rw [parseExpression, parseExpressionLoop_no_opener ts [] F h hF]
    simp
  have hfuel : ts.length + 1 ≤ parseFuel ts := by simp only [parseFuel]; omega
  refine ⟨key _ hfuel, ?_, List.takeWhile_append_dropWhile _ _, ?_, ?_, ?_⟩
  · intro F hF
    rw [key F hF, key _ hfuel]
  · intro t ht
    have := List.mem_takeWhile_imp ht
    simpa [notDelimiterToken] using this
  · cases hr : ts.dropWhile notDelimiterToken with
    | nil => exact Or.inl rfl
    | cons d r =>
      refine Or.inr ⟨d, r, rfl, ?_⟩
      have hd : notDelimiterToken d = false := by
        have := List.head_dropWhile_not notDelimiterToken ts (by simp [hr])
        simpa [hr] using this
      by_contra hcon
      simp only [not_or] at hcon
      simp [notDelimiterToken, hcon.1, hcon.2] at hd
  · intro t _ hs
    exact unescape_eq_unescaped _ t hs

/-! ## Tokenization is lossless -/

theorem flatten_flush (toks : List (List Char)) (tmp : List Char) :
    (flush toks tmp).flatten = toks.flatten ++ tmp := by
  by_cases h : tmp = [] <;> simp [flush, h]

theorem flush_ne_nil (toks : List (List Char)) (tmp : List Char)
    (h : ∀ t ∈ toks, t ≠ []) : ∀ t ∈ flush toks tmp, t ≠ [] := by
  intro t ht
  by_cases hn : tmp = []
  · simp [flush, hn] at ht; exact h t ht
  · simp only [flush, hn, ne_eq, not_false_eq_true, if_true, List.mem_append,
      List.mem_singleton] at ht
    rcases ht with ht | ht
    · exact h t ht
    · rw [ht]; exact hn

theorem tokStep_lossless (k : Nat) (c : Char) (st st1 : TokSt) (read : List Char)
    (hinv : Lossless st read) (hc : c ≠ '\\')
    (hdig : st.state = OPEN_BRACE_COLON → isDigit c = true → st.tmp = [])
    (hstep : tokStep k c st = .ok st1) :
    Lossless st1 (read ++ [c]) ∧
      (st1.state = OPEN_BRACE_COLON → st1.tmp ≠ [] → isDigit c = true) := by
  obtain ⟨toks, state, tmp, escape⟩ := st
  obtain ⟨h1, h2, h3⟩ := hinv
  simp only at h1 h2 h3 hdig
  subst h3
  subst h1
  by_cases s0 : state = TEXT
  · subst s0
    by_cases c1 : c = '{'
    · simp [tokStep, c1] at hstep
      subst hstep
      exact ⟨⟨by simp [flatten_flush, c1], flush_ne_nil _ _ h2, rfl⟩, by simp [OPEN_BRACE,
        OPEN_BRACE_COLON]⟩
    · by_cases c2 : c = '['
      · simp [tokStep, c2] at hstep
        subst hstep
        refine ⟨⟨by simp [flatten_flush, c2], ?_, rfl⟩, by simp [VARIABLE, OPEN_BRACE_COLON]⟩
        intro t ht
        simp only [List.mem_append, List.mem_singleton] at ht
        rcases ht with ht | ht
        · exact flush_ne_nil _ _ h2 t ht
        · rw [ht]; simp
      · by_cases c3 : c = '}' ∨ c = '|'
        · simp [tokStep, hc, c1, c2, c3] at hstep
          subst hstep
          refine ⟨⟨by simp [flatten_flush], ?_, rfl⟩, by simp [TEXT, OPEN_BRACE_COLON]⟩
          intro t ht
          simp only [List.mem_append, List.mem_singleton] at ht
          rcases ht with ht | ht
          · exact flush_ne_nil _ _ h2 t ht
          · rw [ht]; simp
        · simp [tokStep, hc, c1, c2, c3] at hstep
          subst hstep
          exact ⟨⟨by simp, h2, rfl⟩, by simp [TEXT, OPEN_BRACE_COLON]⟩
  · by_cases s1 : state = OPEN_BRACE
    · subst s1
      have hs : OPEN_BRACE ≠ TEXT := by decide
      by_cases c1 : c = '{'
      · simp [tokStep, c1, hs] at hstep
        subst hstep
        exact ⟨⟨by simp [flatten_flush, c1], flush_ne_nil _ _ h2, rfl⟩, by simp [OPEN_BRACE,
          OPEN_BRACE_COLON]⟩
      · by_cases c4 : c = ':'
        · simp [tokStep, c4, hs] at hstep
          subst hstep
          refine ⟨⟨by simp [c4], ?_, rfl⟩, by simp⟩
          intro t ht
          simp only [List.mem_append, List.mem_singleton] at ht
          rcases ht with ht | ht
          · exact h2 t ht
          · rw [ht]; simp
        · by_cases c2 : c = '['
          · simp [tokStep, c2, hs] at hstep
            subst hstep
            refine ⟨⟨by simp [flatten_flush, c2], ?_, rfl⟩, by simp [VARIABLE,
              OPEN_BRACE_COLON]⟩
            intro t ht
            simp only [List.mem_append, List.mem_singleton] at ht
            rcases ht with ht | ht
            · exact flush_ne_nil _ _ h2 t ht
            · rw [ht]; simp
          · by_cases c3 : c = '}' ∨ c = '|'
            · simp [tokStep, hc, c1, c2, c3, c4, hs] at hstep
              subst hstep
              refine ⟨⟨by simp [flatten_flush], ?_, rfl⟩, by simp [OPEN_BRACE,
                OPEN_BRACE_COLON]⟩
              intro t ht
              simp only [List.mem_append, List.mem_singleton] at ht
              rcases ht with ht | ht
              · exact flush_ne_nil _ _ h2 t ht
              · rw [ht]; simp
            · simp [tokStep, hc, c1, c2, c3, c4, hs] at hstep
              subst hstep
              exact ⟨⟨by simp [flatten_flush], flush_ne_nil _ _ h2, rfl⟩, by simp [TEXT,
                OPEN_BRACE_COLON]⟩
    · by_cases s2 : state = OPEN_BRACE_COLON
      · subst s2
        have hs1 : OPEN_BRACE_COLON ≠ TEXT := by decide
        have hs2 : OPEN_BRACE_COLON ≠ OPEN_BRACE := by decide
        by_cases d1 : isDigit c = true
        · have ht := hdig rfl d1
          subst ht
          simp [tokStep, hc, d1, hs1, hs2] at hstep
          subst hstep
          exact ⟨⟨by simp, h2, rfl⟩, fun _ _ => d1⟩
        · by_cases c4 : c = ':'
          · have hcolon : isDigit ':' = false := by decide
            simp [tokStep, hc, hcolon, c4, hs1, hs2] at hstep
            subst hstep
            refine ⟨⟨by simp [flatten_flush, c4], ?_, rfl⟩, by simp [TEXT, OPEN_BRACE_COLON]⟩
            intro t ht
            simp only [List.mem_append, List.mem_singleton] at ht
            rcases ht with ht | ht
            · exact flush_ne_nil _ _ h2 t ht
            · rw [ht]; simp
          · simp [tokStep, hc, d1, c4, hs1, hs2] at hstep
      · by_cases s3 : state = VARIABLE
        · subst s3
          have hs1 : VARIABLE ≠ TEXT := by decide
          have hs2 : VARIABLE ≠ OPEN_BRACE := by decide
          have hs3 : VARIABLE ≠ OPEN_BRACE_COLON := by decide
          by_cases c1 : c = ']'
          · simp [tokStep, c1, hs1, hs2, hs3] at hstep
            subst hstep
            refine ⟨⟨by simp [flatten_flush, c1], ?_, rfl⟩, by simp [TEXT, OPEN_BRACE_COLON]⟩
            intro t ht
            simp only [List.mem_append, List.mem_singleton] at ht
            rcases ht with ht | ht
            · exact flush_ne_nil _ _ h2 t ht
            · rw [ht]; simp
          · simp [tokStep, hc, c1, hs1, hs2, hs3] at hstep
            subst hstep
            exact ⟨⟨by simp, h2, rfl⟩, by simp [hs3]⟩
        · simp [tokStep, hc, s0, s1, s2, s3] at hstep

theorem tokLoop_lossless (w : List Char) :
    ∀ (k : Nat) (st st1 : TokSt) (read : List Char), Lossless st read → '\\' ∉ w →
      noAdjacentDigits w = true →
      (st.state = OPEN_BRACE_COLON → st.tmp ≠ [] → ∀ c r, w = c :: r → isDigit c = false) →
      tokLoop w k st = .ok st1 → Lossless st1 (read ++ w) := by
  induction w with
  | nil =>
    intro k st st1 read hinv _ _ _ h
    simp only [tokLoop, Except.ok.injEq] at h
    subst h
    simpa using hinv
  | cons c w ih =>
    intro k st st1 read hinv hb hadj hhead h
    simp only [List.mem_cons, not_or] at hb
    rw [tokLoop] at h
    cases hs : tokStep k c st with
    | error e => rw [hs] at h; simp at h
    | ok st2 =>
      rw [hs] at h
      simp only at h
      have hdig : st.state = OPEN_BRACE_COLON → isDigit c = true → st.tmp = [] := by
        intro hst hd
        by_contra hne
        have := hhead hst hne c w rfl
        rw [hd] at this
        exact absurd this (by simp)
      obtain ⟨hinv2, hnext⟩ := tokStep_lossless k c st st2 read hinv (Ne.symm hb.1) hdig hs
      have hadj2 : noAdjacentDigits w = true := by
        cases w with
        | nil => rfl
        | cons d r => simp [noAdjacentDigits] at hadj; exact hadj.2
      have hhead2 : st2.state = OPEN_BRACE_COLON → st2.tmp ≠ [] →
          ∀ d r, w = d :: r → isDigit d = false := by
        intro hst hne d r hw
        have hcd := hnext hst hne
        subst hw
        simp [noAdjacentDigits, hcd] at hadj
        exact hadj.1
      have := ih _ st2 st1 (read ++ [c]) hinv2 hb.2 hadj2 hhead2 h
      simpa using this

/-- Tokenization is lossless on rune sequences: for every rune sequence
without a backslash and without two adjacent decimal digits, if `tokenize`
succeeds then the tokens it returns, concatenated in order, are the input, and
none of them is empty. -/
theorem tokenize_lossless_runes (input : List Char) (tokens : List (List Char))
    (hb : '\\' ∉ input) (hadj : noAdjacentDigits input = true)
    (h : tokenize input = .ok tokens) :
    tokens.flatten = input ∧ ∀ t ∈ tokens, t ≠ [] := by
  rw [tokenize] at h
  cases hl : tokLoop input 0 ⟨[], TEXT, [], false⟩ with
  | error e => rw [hl] at h; simp at h
  | ok st =>
    rw [hl] at h
    simp only [Except.ok.injEq] at h
    have hinv := tokLoop_lossless input 0 ⟨[], TEXT, [], false⟩ st []
      ⟨by simp, by simp, rfl⟩ hb hadj (by simp [TEXT, OPEN_BRACE_COLON]) hl
    obtain ⟨h1, h2, _⟩ := hinv
    subst h
    exact ⟨by simpa [flatten_flush] using h1, flush_ne_nil _ _ h2⟩

/-! ## Valid UTF-8: decoding the encoding of a rune sequence -/

theorem char_toNat_range (c : Char) :
    c.toNat < 0xD800 ∨ (0xDFFF < c.toNat ∧ c.toNat < 0x110000) := by
  have := c.valid
  simpa [Char.toNat, UInt32.isValidChar, Nat.isValidChar] using this

theorem char_val_le_iff (c : Char) (n : Nat) (h : n < UInt32.size) :
    c.val ≤ UInt32.ofNatCore n h ↔ c.toNat ≤ n := by
  rfl

theorem utf8Size_eq_length_encodeRune (c : Char) : c.utf8Size = (encodeRune c).length := by
  have h := char_toNat_range c
  simp only [Char.utf8Size, encodeRune, char_val_le_iff]
  split_ifs <;> first | rfl | omega

theorem rangeRune_encodeRune (c : Char) (rest : List Nat) :
    rangeRune (encodeRune c ++ rest) = (c, (encodeRune c).length) := by
  have h := char_toNat_range c
  have hc := Char.ofNat_toNat c
  generalize hn : c.toNat = n at h hc
  simp only [encodeRune, hn]
  split_ifs with h1 h2 h3
  · simp [rangeRune, h1, hc]
  · have e1 : (0xC0 + n / 64) % 32 * 64 + (0x80 + n % 64) % 64 = n := by omega
    simp only [rangeRune, decoderune, List.cons_append, List.nil_append]
    rw [if_neg (by omega), if_pos (by omega), e1, if_pos (by omega), hc]
    rfl
  · have e1 : (0xE0 + n / 4096) % 16 * 4096 + (0x80 + n / 64 % 64) % 64 * 64
        + (0x80 + n % 64) % 64 = n := by omega
    simp only [rangeRune, decoderune, List.cons_append, List.nil_append]
    rw [if_neg (by omega), if_neg (by omega), if_pos (by omega), e1, if_pos (by omega), hc]
    rfl
  · have e1 : (0xF0 + n / 262144) % 8 * 262144 + (0x80 + n / 4096 % 64) % 64 * 4096
        + (0x80 + n / 64 % 64) % 64 * 64 + (0x80 + n % 64) % 64 = n := by omega
    simp only [rangeRune, decoderune, List.cons_append, List.nil_append]
    rw [if_neg (by omega), if_neg (by omega), if_neg (by omega), if_pos (by omega), e1,
      if_pos (by omega), hc]
    rfl

theorem encodeRune_ne_nil (c : Char) : ∃ b bs, encodeRune c = b :: bs := by
  simp only [encodeRune]
  split_ifs <;> exact ⟨_, _, rfl⟩

theorem rangeRunes_skip (bs rest : List Nat) :
    rangeRunes (bs ++ rest) bs.length = rangeRunes rest 0 := by
  induction bs with
  | nil => rfl
  | cons b bs ih => simpa [rangeRunes] using ih

theorem rangeRunes_goString (cs : List Char) :
    rangeRunes (goString cs) 0 = cs.map (fun c => (c, c.utf8Size)) := by
  induction cs with
  | nil => rfl
  | cons c cs ih =>
    obtain ⟨b, bs, hb⟩ := encodeRune_ne_nil c
    have hr := rangeRune_encodeRune c (goString cs)
    have hsz := utf8Size_eq_length_encodeRune c
    rw [hb] at hr hsz
    have hg : goString (c :: cs) = b :: (bs ++ goString cs) := by
      simp [goString, hb]
    rw [hg, rangeRunes]
    simp only [List.cons_append] at hr
    rw [hr]
    simp only [List.length_cons, Nat.add_sub_cancel, rangeRunes_skip, List.map_cons]
    rw [ih, hsz]
    rfl

theorem tokLoopRunes_map (cs : List Char) :
    ∀ (k : Nat) (st : TokSt),
      tokLoopRunes (cs.map (fun c => (c, c.utf8Size))) k st = tokLoop cs k st := by
  induction cs with
  | nil => intro k st; rfl
  | cons c cs ih =>
    intro k st
    simp only [List.map_cons, tokLoopRunes, tokLoop]
    cases tokStep k c st with
    | error e => rfl
    | ok st1 => exact ih _ _

/-- On a valid UTF-8 string, the encoding of the runes `cs`, the tokenizer on
bytes is the tokenizer on the runes. -/
theorem tokenizeString_goString (cs : List Char) :
    tokenizeString (goString cs) = tokenize cs := by
  rw [tokenizeString, rangeRunes_goString, tokLoopRunes_map, tokenize]

/-- On a valid UTF-8 string, `New` on bytes is `New` on the runes. -/
theorem NewString_goString (cs : List Char) : NewString (goString cs) = New cs := by
  rw [NewString, tokenizeString_goString, New]

theorem goString_cons (c : Char) (cs : List Char) :
    goString (c :: cs) = encodeRune c ++ goString cs := by
  simp [goString]

theorem goString_append (a b : List Char) : goString (a ++ b) = goString a ++ goString b := by
  simp [goString]

theorem char_eq_of_toNat (c d : Char) (h : c.toNat = d.toNat) : c = d := by
  rw [← Char.ofNat_toNat c, ← Char.ofNat_toNat d, h]

theorem escString_goString (cs : List Char) : escString (goString cs) = goString (esc cs) := by
  induction cs with
  | nil => rfl
  | cons c cs ih =>
    by_cases hc : c = '{' ∨ c = '[' ∨ c = '|' ∨ c = '}' ∨ c = '\\'
    · have e : esc (c :: cs) = '\\' :: c :: esc cs := by simp [esc, hc]
      rw [e, goString_cons, goString_cons, goString_cons, ← ih]
      rcases hc with h | h | h | h | h <;> subst h <;> rfl
    · have e : esc (c :: cs) = c :: esc cs := by simp [esc, hc]
      rw [e, goString_cons, goString_cons, ← ih]
      simp only [not_or] at hc
      obtain ⟨n1, n2, n3, n4, n5⟩ := hc
      have m1 : c.toNat ≠ 0x7B := fun h => n1 (char_eq_of_toNat c '{' h)
      have m2 : c.toNat ≠ 0x5B := fun h => n2 (char_eq_of_toNat c '[' h)
      have m3 : c.toNat ≠ 0x7C := fun h => n3 (char_eq_of_toNat c '|' h)
      have m4 : c.toNat ≠ 0x7D := fun h => n4 (char_eq_of_toNat c '}' h)
      have m5 : c.toNat ≠ 0x5C := fun h => n5 (char_eq_of_toNat c '\\' h)
      simp only [encodeRune]
      split_ifs with h1 h2 h3
      · simp only [List.singleton_append, escString]
        rw [if_neg (by omega)]
        rfl
      · simp only [List.cons_append, List.nil_append, escString]
        rw [if_neg (by omega), if_neg (by omega)]
        rfl
      · simp only [List.cons_append, List.nil_append, escString]
        rw [if_neg (by omega), if_neg (by omega), if_neg (by omega)]
        rfl
      · simp only [List.cons_append, List.nil_append, escString]
        rw [if_neg (by omega), if_neg (by omega), if_neg (by omega), if_neg (by omega)]
        rfl

/-- C1, as stated, fails: the string of the single byte `0xFF` holds no `{`,
`[`, `|`, `}`, `\`, so escaping leaves it as it is; compiling it returns no
error, `range` reads the byte as `utf8.RuneError` and the token is rebuilt
from `string(r)`, so spinning returns the three bytes of U+FFFD, not the byte
`0xFF`. -/
theorem C1_invalid_byte_counterexample :
    escString [0xFF] = [0xFF] ∧
      NewString (escString [0xFF])
        = .ret (some { symbolTable := fun _ => none,
                       expression := some (expression.mk
                         [expressionElement.str [runeError]]) }, none) ∧
      (∀ (fuel : Nat) (rs : RandSrc),
        Spintax.SpinString (fuel + 2) rs
          { symbolTable := fun _ => none,
            expression := some (expression.mk [expressionElement.str [runeError]]) }
          = .ret [0xEF, 0xBF, 0xBD]) ∧
      [0xEF, 0xBF, 0xBD] ≠ [0xFF] := by
  refine ⟨rfl, rfl, ?_, by decide⟩
  intro fuel rs
  simp [Spintax.SpinString, Spintax.Spin, expression.spin, spinLoop, expressionElement.spin]
  rfl

/-- C1, amended. Escaping round trip: for every string `s` that is valid
UTF-8, the encoding of a sequence of runes `cs`, let `escString s` be `s` with
a backslash inserted before each `{`, `[`, `|`, `}` and `\`; compiling
`escString s` returns a compiled object and no error, and spinning that object
returns exactly `s`, whatever the random source, as soon as the evaluator has
fuel for its two nested calls. -/
theorem C1_escaping_round_trip (cs : List Char) :
    ∃ sp : Spintax, NewString (escString (goString cs)) = .ret (some sp, none) ∧
      ∀ (fuel : Nat) (rs : RandSrc),
        Spintax.SpinString (fuel + 2) rs sp = .ret (goString cs) := by
  obtain ⟨sp, hnew, hspin⟩ := esc_round_trip_runes cs
  refine ⟨sp, ?_, ?_⟩
  · rw [escString_goString, NewString_goString, hnew]
  · intro fuel rs
    simp [Spintax.SpinString, hspin fuel rs]

/-- C18 at the token `a\⏎b` (a backslash before a newline), which `tokenize`
returns for the input `a\⏎b` and which is no opener: `parseExpression` returns
no error and one string element for it, but the element still holds the
escape backslash, `slashes.ReplaceAllString` having replaced nothing (the
pattern `.` does not match a newline); the token with its escape backslash
stripped is `a⏎b`. -/
theorem C18_escaped_newline_not_stripped :
    tokenize ['a', '\\', '\n', 'b'] = .ok [['a', '\\', '\n', 'b']] ∧
      openerToken ['a', '\\', '\n', 'b'] = false ∧
      parseExpression (parseFuel [['a', '\\', '\n', 'b']]) [['a', '\\', '\n', 'b']]
        = .ret (some (expression.mk [expressionElement.str ['a', '\\', '\n', 'b']]),
            [], none) ∧
      unescaped ['a', '\\', '\n', 'b'] = ['a', '\n', 'b'] := by
  refine ⟨rfl, rfl, rfl, rfl⟩

theorem goString_flatten (ts : List (List Char)) :
    (ts.map goString).flatten = goString ts.flatten := by
  induction ts with
  | nil => rfl
  | cons t ts ih => simp [goString_append, ih]

theorem goString_ne_nil (t : List Char) (h : t ≠ []) : goString t ≠ [] := by
  cases t with
  | nil => exact absurd rfl h
  | cons c r =>
    obtain ⟨b, bs, hb⟩ := encodeRune_ne_nil c
    simp [goString_cons, hb]

/-- C20, as stated, fails: the input of the bytes `a`, `0xFF`, `b` holds no
backslash and no decimal digit, and `tokenize` succeeds on it; but `range`
reads the byte `0xFF` as `utf8.RuneError` and the token is rebuilt from
`string(r)`, so the one token returned is `a`, U+FFFD, `b`, five bytes that
are not the input. -/
theorem C20_invalid_byte_counterexample :
    0x5C ∉ [0x61, 0xFF, 0x62] ∧ (∀ b ∈ [0x61, 0xFF, 0x62], ¬ (0x30 ≤ b ∧ b ≤ 0x39)) ∧
      tokenizeString [0x61, 0xFF, 0x62] = .ok [['a', runeError, 'b']] ∧
      ([['a', runeError, 'b']].map goString).flatten = [0x61, 0xEF, 0xBF, 0xBD, 0x62] ∧
      [0x61, 0xEF, 0xBF, 0xBD, 0x62] ≠ [0x61, 0xFF, 0x62] := by
  refine ⟨by decide, by decide, rfl, rfl, by decide⟩

/-- C20, amended. Tokenization is lossless: for every input that is valid
UTF-8, the encoding of a sequence of runes `cs`, and contains no backslash and
no two adjacent decimal digits, if `tokenize` succeeds then the concatenation
of the returned tokens, in order, equals the input, and no returned token is
the empty string. -/
theorem C20_tokenize_lossless (cs : List Char) (tokens : List (List Char))
    (hb : '\\' ∉ cs) (hadj : noAdjacentDigits cs = true)
    (h : tokenizeString (goString cs) = .ok tokens) :
    (tokens.map goString).flatten = goString cs ∧ ∀ t ∈ tokens, goString t ≠ [] := by
  rw [tokenizeString_goString] at h
  obtain ⟨h1, h2⟩ := tokenize_lossless_runes cs tokens hb hadj h
  refine ⟨by rw [goString_flatten, h1], ?_⟩
  intro t ht
  exact goString_ne_nil t (h2 t ht)

/-- C20 at the input `x{:2:a|b}[y]`, whose tokens are `x`, `{:`, `2`, `:`,
`a`, `|`, `b`, `}`, `[`, `y`, `]`. -/
theorem C20_tokenize_lossless_witness :
    ([['x'], ['{', ':'], ['2'], [':'], ['a'], ['|'], ['b'], ['}'], ['['], ['y'],
        [']']].map goString).flatten
        = goString ['x', '{', ':', '2', ':', 'a', '|', 'b', '}', '[', 'y', ']'] ∧
      ∀ t ∈ [['x'], ['{', ':'], ['2'], [':'], ['a'], ['|'], ['b'], ['}'], ['['], ['y'], [']']],
        goString t ≠ [] :=
  C20_tokenize_lossless ['x', '{', ':', '2', ':', 'a', '|', 'b', '}', '[', 'y', ']']
    [['x'], ['{', ':'], ['2'], [':'], ['a'], ['|'], ['b'], ['}'], ['['], ['y'], [']']]
    (by decide) (by decide) (by rfl)

end GoSpintax
